import Mathlib

/-!
Verification of the code-analysis pipeline of the repository
(`backend/main.py` and `code-clarified/backend/main.py`).

The repository's `analyzer` module (structure extractor, graph builder,
diagram serializer) is imported by both endpoint files but its source is
not part of the repository snapshot, so those collaborators are modelled
from the specification.  The two HTTP endpoint functions are embedded
directly from their Python sources, parameterised over the behaviour of
the external collaborators (summarizer, parser, analyzer, renderer).
-/

namespace Analyzer

mutual

/-- Modelled from the spec: the `StructureRecord` node kinds of section 3
(`FunctionDef`, `ClassDef`, `If`, `For`/`While`, `Call`, `Return`, `Plain`);
a `Module` is a statement list.  Branching constructs carry separate ordered
child sequences per branch. -/
inductive SNode where
  | functionDef (name : String) (params : List String) (body : SList)
  | classDef (name : String) (body : SList)
  | sif (cond : String) (thenB : SList) (elseB : SList)
  | sfor (cond : String) (body : SList)
  | swhile (cond : String) (body : SList)
  | scall (target : String)
  | sret
  | plain (label : String)

/-- An ordered sequence of structure-record statements (a specialised list
so that all lowering functions are structurally recursive). -/
inductive SList where
  | nil
  | cons (s : SNode) (l : SList)

end

/-- Convert an ordinary list of statements into an `SList`. -/
def SList.ofList : List SNode → SList
  | [] => .nil
  | s :: r => .cons s (SList.ofList r)

/-- Modelled from the spec: GraphModel node kinds start/end/process/decision/call
(section 3).  `end` is a Lean keyword, so the end kind is named `stop`. -/
inductive NodeKind where
  | start
  | stop
  | process
  | decision
  | call
  deriving Repr, DecidableEq

/-- Modelled from the spec: a GraphModel node `(id, label, kind)`. -/
structure GNode where
  id : Nat
  label : String
  kind : NodeKind
  deriving Repr, DecidableEq

/-- Modelled from the spec: a GraphModel directed edge
`(from_id, to_id, optional label)`. -/
structure GEdge where
  fromId : Nat
  toId : Nat
  label : Option String
  deriving Repr, DecidableEq

/-- Modelled from the spec: a GraphModel is a set of nodes and directed
edges (kept as lists in construction order). -/
structure GraphModel where
  nodes : List GNode
  edges : List GEdge
  deriving Repr, DecidableEq

/-- Builder state: fresh-id counter plus the nodes and edges accumulated
so far (append-only). -/
structure BState where
  nextId : Nat
  nodes : List GNode
  edges : List GEdge
  deriving Repr, DecidableEq

/-- A pending flow-out: the id of the node awaiting its outgoing edge and
the label that edge must carry ("true"/"false" right after a decision,
`none` for a plain sequential edge). -/
abbrev Pend := Nat × Option String

/-- Allocate a fresh node of the given kind and label. -/
def newNode (st : BState) (kind : NodeKind) (label : String) : BState × Nat :=
  (⟨st.nextId + 1, st.nodes ++ [⟨st.nextId, label, kind⟩], st.edges⟩, st.nextId)

/-- Append one directed edge. -/
def addEdge (st : BState) (f t : Nat) (l : Option String) : BState :=
  ⟨st.nextId, st.nodes, st.edges ++ [⟨f, t, l⟩]⟩

/-- Connect a pending flow-out to a target node (no-op when the flow is
terminated, i.e. the pending is `none`). -/
def connect (st : BState) (p : Option Pend) (t : Nat) : BState :=
  match p with
  | none => st
  | some (s, l) => addEdge st s t l

/-- Merge step after an `If`: when both branch tails are terminated no
join is needed and the flow stays terminated; otherwise a synthetic join
node is allocated and every live branch tail (or the decision itself, for
an empty branch, through its still-labelled pending) is connected to it. -/
def joinStep (stF : BState) (pT pF : Option Pend) : BState × Option Pend :=
  match pT, pF with
  | none, none => (stF, none)
  | pT, pF =>
      let stJ := newNode stF .process "join"
      (connect (connect stJ.1 pT stJ.2) pF stJ.2, some (stJ.2, none))

/-- Back-edge step closing a loop: the body tail (pending) is connected
back to the condition node `c`, labelled `"loop"` when the tail is a plain
node, or with the tail's own pending label; a terminated body adds no
back-edge. -/
def backStep (stB : BState) (pB : Option Pend) (c : Nat) : BState :=
  match pB with
  | none => stB
  | some (t, none) => addEdge stB t c (some "loop")
  | some (t, some l) => addEdge stB t c (some l)

mutual

/-- Modelled from the spec: lowering of one statement by the Graph
Builder's structured-flow algorithm (section 4.2), which the repository
imports as part of `build_graph_model` from the missing `analyzer` module.
`d = true` is the class-body mode in which only nested function/class
definitions contribute (their fragments), since class members are not part
of any execution flow.  An `If` creates one decision node, lowers each
branch behind a "true"/"false" labelled pending and merges live branch
tails into a synthetic join node (no join when both branches terminate).
A loop creates one condition node, lowers the body behind a "true"
pending, connects the body tail back to the condition (back-edge labelled
"loop" for an unlabeled tail, otherwise with the tail's own pending label)
and continues from the condition's "false" exit.  `Return` links to the
enclosing scope's end node `endId` and terminates the chain; statements
after it form a disconnected island.  Nested functions get their own
start/end fragment, not merged into the outer flow. -/
def buildStmt (d : Bool) (endId : Nat) (st : BState) (p : Option Pend) :
    SNode → BState × Option Pend
  | .functionDef _name _params body =>
      let st1p := newNode st .start "start"
      let st2p := newNode st1p.1 .stop "end"
      let inner := buildSeq false st2p.2 st2p.1 (some (st1p.2, none)) body
      (connect inner.1 inner.2 st2p.2, p)
  | .classDef _name body =>
      ((buildSeq true endId st none body).1, p)
  | .sif cond thenB elseB =>
      if d then (st, p) else
      let st1p := newNode st .decision cond
      let st2 := connect st1p.1 p st1p.2
      let resT := buildSeq false endId st2 (some (st1p.2, some "true")) thenB
      let resF := buildSeq false endId resT.1 (some (st1p.2, some "false")) elseB
      joinStep resF.1 resT.2 resF.2
  | .sfor cond body =>
      if d then (st, p) else
      let st1p := newNode st .decision cond
      let st2 := connect st1p.1 p st1p.2
      let resB := buildSeq false endId st2 (some (st1p.2, some "true")) body
      (backStep resB.1 resB.2 st1p.2, some (st1p.2, some "false"))
  | .swhile cond body =>
      if d then (st, p) else
      let st1p := newNode st .decision cond
      let st2 := connect st1p.1 p st1p.2
      let resB := buildSeq false endId st2 (some (st1p.2, some "true")) body
      (backStep resB.1 resB.2 st1p.2, some (st1p.2, some "false"))
  | .scall target =>
      if d then (st, p) else
      let st1p := newNode st .call target
      (connect st1p.1 p st1p.2, some (st1p.2, none))
  | .sret =>
      if d then (st, p) else
      let st1p := newNode st .process "return"
      (addEdge (connect st1p.1 p st1p.2) st1p.2 endId none, none)
  | .plain label =>
      if d then (st, p) else
      let st1p := newNode st .process label
      (connect st1p.1 p st1p.2, some (st1p.2, none))

/-- Lower a statement sequence, threading the builder state and the
"current predecessor" pending through the statements in source order. -/
def buildSeq (d : Bool) (endId : Nat) (st : BState) (p : Option Pend) :
    SList → BState × Option Pend
  | .nil => (st, p)
  | .cons s rest =>
      let r := buildStmt d endId st p s
      buildSeq d endId r.1 r.2 rest

end

/-- Is a top-level statement part of the module's execution flow (rather
than a definition producing its own fragment)? -/
def isFlowStmt : SNode → Bool
  | .functionDef _ _ _ => false
  | .classDef _ _ => false
  | _ => true

/-- Does the module body contain a top-level flow statement? -/
def hasFlowStmt : SList → Bool
  | .nil => false
  | .cons s rest => isFlowStmt s || hasFlowStmt rest

mutual

/-- Number of function scopes lowered by `buildStmt` in the given mode:
functions everywhere in executed positions, recursing into class bodies in
defs-only mode and into branches/loop bodies in flow mode. -/
def countFnsStmt (d : Bool) : SNode → Nat
  | .functionDef _ _ body => 1 + countFnsSeq false body
  | .classDef _ body => countFnsSeq true body
  | .sif _ thenB elseB => if d then 0 else countFnsSeq false thenB + countFnsSeq false elseB
  | .sfor _ body => if d then 0 else countFnsSeq false body
  | .swhile _ body => if d then 0 else countFnsSeq false body
  | .scall _ => 0
  | .sret => 0
  | .plain _ => 0

/-- `countFnsStmt` summed over a sequence. -/
def countFnsSeq (d : Bool) : SList → Nat
  | .nil => 0
  | .cons s rest => countFnsStmt d s + countFnsSeq d rest

end

/-- Modelled from the spec: `build(record) -> GraphModel`, failing with
`EmptyStructure` when the record contains no function and no top-level
statement (section 4.2).  When top-level flow statements exist the module
scope gets its own start/end pair like a function scope; otherwise only
the definition fragments are emitted. -/
def build_graph_model (r : SList) : Except String GraphModel :=
  if countFnsSeq false r = 0 && !hasFlowStmt r then
    .error "EmptyStructure"
  else if hasFlowStmt r then
    let st1p := newNode ⟨0, [], []⟩ .start "start"
    let st2p := newNode st1p.1 .stop "end"
    let res := buildSeq false st2p.2 st2p.1 (some (st1p.2, none)) r
    let st4 := connect res.1 res.2 st2p.2
    .ok ⟨st4.nodes, st4.edges⟩
  else
    let res := buildSeq true 0 ⟨0, [], []⟩ none r
    .ok ⟨res.1.nodes, res.1.edges⟩

mutual

/-- Can execution flow past this statement into the next one?  `Return`
terminates the chain; an `If` terminates exactly when both branches do. -/
def stmtLive : SNode → Bool
  | .sret => false
  | .sif _ thenB elseB => seqLive thenB || seqLive elseB
  | .functionDef _ _ _ => true
  | .classDef _ _ => true
  | .sfor _ _ => true
  | .swhile _ _ => true
  | .scall _ => true
  | .plain _ => true

/-- Can execution flow out of the tail of this statement sequence
(an empty sequence passes the incoming flow through)? -/
def seqLive : SList → Bool
  | .nil => true
  | .cons s .nil => stmtLive s
  | .cons _ (.cons s rest) => seqLive (.cons s rest)

end

mutual

/-- No statement of any executed sequence inside this statement follows a
terminated flow (i.e. no unreachable code after a `Return` or after an
`If` both of whose branches return).  The flag is the builder's
defs-only mode: inside a class body only the nested definitions are
lowered, so only those are constrained. -/
def noDeadStmt : Bool → SNode → Bool
  | _, .functionDef _ _ body => noDeadSeq false body
  | _, .classDef _ body => noDeadSeq true body
  | d, .sif _ thenB elseB => d || (noDeadSeq false thenB && noDeadSeq false elseB)
  | d, .sfor _ body => d || noDeadSeq false body
  | d, .swhile _ body => d || noDeadSeq false body
  | _, .scall _ => true
  | _, .sret => true
  | _, .plain _ => true

/-- `noDeadStmt` over a sequence: additionally, in flow mode every
statement except the last must let execution continue. -/
def noDeadSeq : Bool → SList → Bool
  | _, .nil => true
  | d, .cons s .nil => noDeadStmt d s
  | d, .cons s (.cons s2 rest) =>
      noDeadStmt d s && (d || stmtLive s) && noDeadSeq d (.cons s2 rest)

end

/-- Does the sequence end with a plain statement or a call statement
(hence lower to a chain whose tail is a live, unlabeled node)? -/
def endsWithSimple : SList → Bool
  | .nil => false
  | .cons (.plain _) .nil => true
  | .cons (.scall _) .nil => true
  | .cons _ .nil => false
  | .cons _ (.cons s rest) => endsWithSimple (.cons s rest)

mutual

/-- Every loop body lowered by the builder (recursively, in executed
positions) ends with a plain/call statement, so its tail flows back to the
condition as the single `"loop"`-labelled back-edge. -/
def goodLoopsStmt : Bool → SNode → Bool
  | _, .functionDef _ _ body => goodLoopsSeq false body
  | _, .classDef _ body => goodLoopsSeq true body
  | d, .sif _ thenB elseB => d || (goodLoopsSeq false thenB && goodLoopsSeq false elseB)
  | d, .sfor _ body => d || (endsWithSimple body && goodLoopsSeq false body)
  | d, .swhile _ body => d || (endsWithSimple body && goodLoopsSeq false body)
  | _, .scall _ => true
  | _, .sret => true
  | _, .plain _ => true

/-- `goodLoopsStmt` over a sequence. -/
def goodLoopsSeq : Bool → SList → Bool
  | _, .nil => true
  | d, .cons s rest => goodLoopsStmt d s && goodLoopsSeq d rest

end

mutual

/-- Number of `If` constructs lowered by `buildStmt` in the given mode. -/
def countIfsStmt (d : Bool) : SNode → Nat
  | .functionDef _ _ body => countIfsSeq false body
  | .classDef _ body => countIfsSeq true body
  | .sif _ thenB elseB =>
      if d then 0 else 1 + countIfsSeq false thenB + countIfsSeq false elseB
  | .sfor _ body => if d then 0 else countIfsSeq false body
  | .swhile _ body => if d then 0 else countIfsSeq false body
  | .scall _ => 0
  | .sret => 0
  | .plain _ => 0

/-- `countIfsStmt` summed over a sequence. -/
def countIfsSeq (d : Bool) : SList → Nat
  | .nil => 0
  | .cons s rest => countIfsStmt d s + countIfsSeq d rest

end

mutual

/-- Number of `For`/`While` constructs lowered by `buildStmt` in the given
mode. -/
def countLoopsStmt (d : Bool) : SNode → Nat
  | .functionDef _ _ body => countLoopsSeq false body
  | .classDef _ body => countLoopsSeq true body
  | .sif _ thenB elseB =>
      if d then 0 else countLoopsSeq false thenB + countLoopsSeq false elseB
  | .sfor _ body => if d then 0 else 1 + countLoopsSeq false body
  | .swhile _ body => if d then 0 else 1 + countLoopsSeq false body
  | .scall _ => 0
  | .sret => 0
  | .plain _ => 0

/-- `countLoopsStmt` summed over a sequence. -/
def countLoopsSeq (d : Bool) : SList → Nat
  | .nil => 0
  | .cons s rest => countLoopsStmt d s + countLoopsSeq d rest

end

/-- Number of scopes lowered by the builder: every function scope plus the
module scope when top-level flow statements exist. -/
def numScopes (r : SList) : Nat :=
  countFnsSeq false r + (if hasFlowStmt r then 1 else 0)

/-- Number of nodes of a given kind in a GraphModel. -/
def countKind (g : GraphModel) (k : NodeKind) : Nat :=
  g.nodes.countP fun n => decide (n.kind = k)

/-- Does some edge of the model point at node id `i`? -/
def hasIncomingB (g : GraphModel) (i : Nat) : Bool :=
  g.edges.any fun e => decide (e.toId = i)

/-- Out-degree of node id `i` in an edge list. -/
def outDeg (es : List GEdge) (i : Nat) : Nat :=
  es.countP fun e => decide (e.fromId = i)

/-- Number of outgoing edges of node id `i` carrying exactly label `l`. -/
def outDegL (es : List GEdge) (i : Nat) (l : Option String) : Nat :=
  es.countP fun e => decide (e.fromId = i ∧ e.label = l)

/-- Number of `"loop"`-labelled (back) edges in an edge list. -/
def loopEdges (es : List GEdge) : Nat :=
  es.countP fun e => decide (e.label = some "loop")

/-- The edge list contributed by connecting a pending flow-out to target
`t` (empty for a terminated flow). -/
def pendEdges (p : Option Pend) (t : Nat) : List GEdge :=
  match p with
  | none => []
  | some (s, l) => [⟨s, t, l⟩]

/-- The edge list contributed by the back-edge step of a loop with
condition node `c`. -/
def backEdges (pB : Option Pend) (c : Nat) : List GEdge :=
  match pB with
  | none => []
  | some (t, none) => [⟨t, c, some "loop"⟩]
  | some (t, some l) => [⟨t, c, some l⟩]

/-- Invariant bundle for one builder step from `(st, p)` to `(st', p')`:
the fresh-id counter grows, the outgoing pending stays below it, the step
only appends node and edge deltas whose sources are the incoming pending
or fresh ids, an incoming live pending is either passed through untouched
or consumed by exactly one edge carrying its own label, and every decision
node created by the step either already carries its two labelled
out-edges or is the step's own still-pending condition with only its
"true" edge emitted so far. -/
def OutSpec (d : Bool) (st : BState) (p : Option Pend)
    (st' : BState) (p' : Option Pend) : Prop :=
  st.nextId ≤ st'.nextId ∧
  (∀ s0 l0, p' = some (s0, l0) → s0 < st'.nextId) ∧
  (p' = p ∨ ∀ s0 l0, p' = some (s0, l0) → st.nextId ≤ s0) ∧
  (d = true → p' = p) ∧
  ∃ Δn Δe,
    st'.nodes = st.nodes ++ Δn ∧
    st'.edges = st.edges ++ Δe ∧
    (∀ n ∈ Δn, st.nextId ≤ n.id ∧ n.id < st'.nextId) ∧
    (∀ e ∈ Δe, ((∃ l0, p = some (e.fromId, l0)) ∨ st.nextId ≤ e.fromId) ∧
      e.fromId < st'.nextId) ∧
    (∀ s0 l0, p = some (s0, l0) →
      (p' = p ∧ outDeg Δe s0 = 0) ∨
      (outDeg Δe s0 = 1 ∧ outDegL Δe s0 l0 = 1 ∧ ∀ lab, p' ≠ some (s0, lab))) ∧
    (∀ n ∈ Δn, n.kind = NodeKind.decision →
      (p' = some (n.id, some "false") ∧ outDeg Δe n.id = 1 ∧
        outDegL Δe n.id (some "true") = 1) ∨
      ((∀ lab, p' ≠ some (n.id, lab)) ∧ outDeg Δe n.id = 2 ∧
        outDegL Δe n.id (some "true") = 1 ∧ outDegL Δe n.id (some "false") = 1))

/-- State well-formedness: every node id and every edge endpoint is below
the fresh-id counter. -/
def stWF (st : BState) : Prop :=
  (∀ n ∈ st.nodes, n.id < st.nextId) ∧
    ∀ e ∈ st.edges, e.fromId < st.nextId ∧ e.toId < st.nextId

/-- The pending flow-out source, when present, is an existing id. -/
def pendVal (st : BState) (p : Option Pend) : Prop :=
  ∀ s l, p = some (s, l) → s < st.nextId

/-- Modelled from the spec: the `SyntaxTree` produced once per request by
the external parser (`ast.parse`); opaque to the endpoint, which only hands
it to the Structure Extractor. -/
structure SyntaxTreeTy where
  src : String
  deriving Repr, DecidableEq

/-- Modelled from the spec: label escaping in the Diagram Serializer
(section 4.3) — identifiers containing characters meaningful to the target
description grammar must not corrupt the output.  Backslashes and double
quotes are escaped. -/
def escLabel (s : String) : String :=
  String.mk (s.toList.flatMap fun c =>
    if c = '\\' then ['\\', '\\']
    else if c = '"' then ['\\', '"']
    else [c])

/-- Shape assigned to each node kind by the Diagram Serializer:
decision → diamond, start/end → rounded terminal, process/call →
rectangle (section 4.3). -/
def nodeShape : NodeKind → String
  | .decision => "diamond"
  | .start => "rounded"
  | .stop => "rounded"
  | .process => "rectangle"
  | .call => "rectangle"

/-- One serialized node line. -/
def nodeLine (n : GNode) : String :=
  "  n" ++ toString n.id ++ " [shape=" ++ nodeShape n.kind ++
    " label=\"" ++ escLabel n.label ++ "\"];\n"

/-- One serialized edge line. -/
def edgeLine (e : GEdge) : String :=
  "  n" ++ toString e.fromId ++ " -> n" ++ toString e.toId ++
    (match e.label with
     | none => ""
     | some l => " [label=\"" ++ escLabel l ++ "\"]") ++ ";\n"

/-- Does every edge endpoint name an existing node id?  A dangling edge is
a programming error in the Graph Builder, not a runtime condition. -/
def wellFormedB (g : GraphModel) : Bool :=
  g.edges.all fun e =>
    (g.nodes.any fun n => decide (n.id = e.fromId)) &&
      (g.nodes.any fun n => decide (n.id = e.toId))

/-- Modelled from the spec: the Diagram Serializer
`serialize(graph) -> DiagramDescription` (section 4.3), which the repository
imports as `create_logic_flowchart` from the missing `analyzer` module.
It emits a flat textual graph description (every node with its shape and
escaped label, every edge with its optional label); a malformed model with
dangling edge endpoints is refused as a programming error (`none`). -/
def create_logic_flowchart (g : GraphModel) : Option String :=
  if wellFormedB g then
    some ("digraph \x7b\n" ++
      String.join (g.nodes.map nodeLine) ++
      String.join (g.edges.map edgeLine) ++ "\x7d\n")
  else
    none

end Analyzer

namespace Backend

/-- Kind of a raised Python exception, as far as the endpoints' `except`
clauses discriminate them. -/
inductive ExnKind where
  | syntaxError
  | valueError
  | runtimeError
  | otherError
  deriving Repr, DecidableEq

/-- A raised Python exception: its class kind and its `str(e)` message
(for a `SyntaxError` the message includes the location, as Python's
`str` does). -/
structure PyExn where
  kind : ExnKind
  msg : String
  deriving Repr, DecidableEq

/-- `class AnalysisResult(BaseModel)` of both `main.py` files: summary,
optional base64 flowchart, optional error string. -/
structure AnalysisResult where
  summary : String
  flowchart_base64 : Option String
  error : Option String
  deriving Repr, DecidableEq

/-- A rendered `graphviz` object (`dot_obj` in the sources), opaque to the
endpoint except for its `pipe` method. -/
structure DotObj where
  dotSource : String
  deriving Repr, DecidableEq

/-- The external collaborators imported by both endpoints from the
`analyzer` module plus the renderer method; each may raise.  `visit_structure`
is `CodeAnalyzer().visit(tree)` followed by reading `.structure`;
`pipe` is `dot_obj.pipe(format='png')` returning the PNG bytes. -/
structure Collaborators where
  generate_ai_summary : String → Except PyExn String
  ast_parse : String → Except PyExn Analyzer.SyntaxTreeTy
  visit_structure : Analyzer.SyntaxTreeTy → Except PyExn Analyzer.SList
  build_graph_model : Analyzer.SList → Except PyExn Analyzer.GraphModel
  create_logic_flowchart : Analyzer.GraphModel → Except PyExn (Option DotObj)
  pipe : DotObj → Except PyExn (List Nat)

/-- Python's `base64.b64encode` alphabet (RFC 4648). -/
def b64Char (n : Nat) : Char :=
  "ABCDEFGHIJKLMNOPQRSTUVWXYZabcdefghijklmnopqrstuvwxyz0123456789+/".toList.getD n 'A'

/-- Encode a byte list (naturals below 256) to its base64 character list,
with `=` padding. -/
def b64chars : List Nat → List Char
  | [] => []
  | [a] => [b64Char (a / 4), b64Char (a % 4 * 16), '=', '=']
  | [a, b] => [b64Char (a / 4), b64Char (a % 4 * 16 + b / 16), b64Char (b % 16 * 4), '=']
  | a :: b :: c :: rest =>
      b64Char (a / 4) :: b64Char (a % 4 * 16 + b / 16) ::
        b64Char (b % 16 * 4 + c / 64) :: b64Char (c % 64) :: b64chars rest

/-- Python's `base64.b64encode(...).decode("utf-8")`. -/
def b64encode (bytes : List Nat) : String :=
  String.mk (b64chars bytes)

/-- The `try` block of `analyze_code_endpoint` in `src/backend/main.py`
(lines 48–73): summary, parse, visit, build, serialize; an explicit
`ValueError` when the flowchart object is `None`; render to PNG; an
explicit `RuntimeError` when Graphviz returns empty data; else the
successful `AnalysisResult`. -/
def analyze_body (C : Collaborators) (code : String) : Except PyExn AnalysisResult := do
  let summary ← C.generate_ai_summary code
  let tree ← C.ast_parse code
  let code_structure ← C.visit_structure tree
  let graph_model ← C.build_graph_model code_structure
  let dot_obj ← C.create_logic_flowchart graph_model
  match dot_obj with
  | none =>
      Except.error ⟨.valueError, "Failed to generate flowchart object from the graph model."⟩
  | some d => do
      let png_data ← C.pipe d
      if png_data.isEmpty then
        Except.error ⟨.runtimeError,
          "Graphviz returned empty data. Is it installed and in your system's PATH?"⟩
      else
        Except.ok ⟨summary, some (b64encode png_data), none⟩

/-- `analyze_code_endpoint` of `src/backend/main.py`: the whole `try` body
with its single `except Exception` clause that stuffs any raised exception
into one generic error string (line 78). -/
def analyze_code_endpoint (C : Collaborators) (code : String) : AnalysisResult :=
  match analyze_body C code with
  | .ok r => r
  | .error e => ⟨"", none, some ("An unexpected error occurred: " ++ e.msg)⟩

/-- The `try` block of `analyze_code_endpoint` in
`src/code-clarified/backend/main.py` (lines 46–64): same pipeline but with
no `None` check on the flowchart object (calling `.pipe` on `None` raises
an `AttributeError`) and no empty-data check on the PNG bytes. -/
def analyze_body_clarified (C : Collaborators) (code : String) :
    Except PyExn AnalysisResult := do
  let summary ← C.generate_ai_summary code
  let tree ← C.ast_parse code
  let code_structure ← C.visit_structure tree
  let graph_model ← C.build_graph_model code_structure
  let dot_obj ← C.create_logic_flowchart graph_model
  match dot_obj with
  | none =>
      Except.error ⟨.otherError, "AttributeError: NoneType object has no attribute pipe"⟩
  | some d => do
      let png_data ← C.pipe d
      Except.ok ⟨summary, some (b64encode png_data), none⟩

/-- `analyze_code_endpoint` of `src/code-clarified/backend/main.py`: only
`SyntaxError` is caught (line 66); any other raised exception escapes the
endpoint uncaught (`Except.error`). -/
def analyze_code_endpoint_clarified (C : Collaborators) (code : String) :
    Except PyExn AnalysisResult :=
  match analyze_body_clarified C code with
  | .ok r => .ok r
  | .error e =>
      match e.kind with
      | .syntaxError => .ok ⟨"", none, some ("Syntax Error in provided code: " ++ e.msg)⟩
      | _ => .error e

/-- A collaborator environment in which every external call succeeds:
the summarizer returns a fixed summary, parsing succeeds, the extractor
returns a one-function record, graph building and serialization are the
spec-modelled functions, and the renderer returns the PNG magic bytes. -/
def okCollab : Collaborators where
  generate_ai_summary := fun _ => .ok "This function returns 1."
  ast_parse := fun s => .ok ⟨s⟩
  visit_structure := fun _ =>
    .ok (.cons (.functionDef "f" [] (.cons .sret .nil)) .nil)
  build_graph_model := fun r =>
    match Analyzer.build_graph_model r with
    | .ok g => .ok g
    | .error m => .error ⟨.valueError, m⟩
  create_logic_flowchart := fun g =>
    match Analyzer.create_logic_flowchart g with
    | some s => .ok (some ⟨s⟩)
    | none => .ok none
  pipe := fun _ => .ok [137, 80, 78, 71]

/-- `okCollab` with a summarizer that raises (e.g. the network call to the
text-generation service fails). -/
def summarizerDownCollab : Collaborators :=
  { okCollab with
      generate_ai_summary := fun _ => .error ⟨.otherError, "summarizer unavailable"⟩ }

/-- `okCollab` with a parser that raises a `SyntaxError`, as `ast.parse`
does on `def f(:`. -/
def syntaxErrCollab : Collaborators :=
  { okCollab with
      ast_parse := fun _ => .error ⟨.syntaxError, "invalid syntax (<unknown>, line 1)"⟩ }

/-- `okCollab` with a renderer whose `pipe` call raises (layout engine not
installed). -/
def rendererDownCollab : Collaborators :=
  { okCollab with
      pipe := fun _ => .error ⟨.otherError,
        "failed to execute dot, make sure the Graphviz executables are on your systems PATH"⟩ }

/-- `okCollab` with a renderer that returns no data. -/
def rendererEmptyCollab : Collaborators :=
  { okCollab with pipe := fun _ => .ok [] }

/-- A minimal all-success collaborator environment with tiny concrete
values at every stage. -/
def tinyCollab : Collaborators where
  generate_ai_summary := fun _ => .ok "s"
  ast_parse := fun s => .ok ⟨s⟩
  visit_structure := fun _ => .ok .nil
  build_graph_model := fun _ => .ok ⟨[], []⟩
  create_logic_flowchart := fun _ => .ok (some ⟨"digraph"⟩)
  pipe := fun _ => .ok [1, 2, 3]

/-- Every successful return of the `src/backend` try-block is the record
built on the last line of the block: some summary, the base64 encoding of
some nonempty PNG byte string, and no error. -/
theorem analyze_body_ok (C : Collaborators) (code : String) (r : AnalysisResult)
    (h : analyze_body C code = .ok r) :
    ∃ s png, png ≠ [] ∧ r = ⟨s, some (b64encode png), none⟩ := by
  unfold analyze_body at h
  simp only [Bind.bind, Except.bind] at h
  repeat' split at h
  all_goals simp_all
  all_goals exact ⟨_, _, by assumption, Eq.symm (by assumption)⟩

/-- C1: in `src/backend/main.py` a summarizer exception does NOT leave the
flowchart intact — the single try/except aborts the whole response, returning
`flowchart_base64 = None` and the generic error string, even though with the
very same downstream collaborators (parsing, graph building, rendering all
succeeding) the diagram `iVBORw==` would have been produced.  This refutes
the claim that the summary and the flowchart are produced and reported
independently. -/
theorem C1_summarizer_exception_aborts_flowchart :
    analyze_code_endpoint summarizerDownCollab "def f():\n    return 1" =
      ⟨"", none, some "An unexpected error occurred: summarizer unavailable"⟩ ∧
    (analyze_code_endpoint okCollab "def f():\n    return 1").flowchart_base64 =
      some "iVBORw==" := by
  exact ⟨rfl, rfl⟩

/-- C2: in `src/backend/main.py` every raised exception, whatever its kind,
is flattened into the single generic string
`"An unexpected error occurred: ..."` — a `SyntaxError` from parsing (for
any exception value `e`, the result is the same record ignoring `e.kind`)
is formatted identically to a renderer failure, so the caller cannot
discriminate the error kinds. -/
theorem C2_all_exception_kinds_merged :
    (∀ (e : PyExn) (code : String),
      analyze_code_endpoint { okCollab with ast_parse := fun _ => .error e } code =
        ⟨"", none, some ("An unexpected error occurred: " ++ e.msg)⟩) ∧
    analyze_code_endpoint rendererEmptyCollab "def f():\n    return 1" =
      ⟨"", none,
        some "An unexpected error occurred: Graphviz returned empty data. Is it installed and in your system's PATH?"⟩ := by
  constructor
  · intro e code
    unfold analyze_code_endpoint analyze_body
    simp [Bind.bind, Except.bind, okCollab]
  · rfl

/-- C3: when the summarizer succeeds and `ast.parse` raises a
`SyntaxError` with message `m`, both endpoints return a response whose
`flowchart_base64` is `None` and whose error message carries `m`; the
result is the same for every behaviour of the structure extractor, graph
builder, serializer and renderer, i.e. those stages are never reached and
no GraphModel is produced. -/
theorem C3_syntax_error_short_circuits (C : Collaborators) (code s m : String)
    (hs : C.generate_ai_summary code = .ok s)
    (hp : C.ast_parse code = .error ⟨.syntaxError, m⟩) :
    analyze_code_endpoint C code =
      ⟨"", none, some ("An unexpected error occurred: " ++ m)⟩ ∧
    analyze_code_endpoint_clarified C code =
      .ok ⟨"", none, some ("Syntax Error in provided code: " ++ m)⟩ := by
  unfold analyze_code_endpoint analyze_body
    analyze_code_endpoint_clarified analyze_body_clarified
  rw [hs, hp]
  simp [Bind.bind, Except.bind]

/-- C3 witness: the syntactically invalid input `def f(:` with a parser
that raises Python's actual `SyntaxError` message. -/
theorem C3_syntax_error_short_circuits_witness :
    analyze_code_endpoint syntaxErrCollab "def f(:" =
      ⟨"", none,
        some ("An unexpected error occurred: " ++ "invalid syntax (<unknown>, line 1)")⟩ ∧
    analyze_code_endpoint_clarified syntaxErrCollab "def f(:" =
      .ok ⟨"", none,
        some ("Syntax Error in provided code: " ++ "invalid syntax (<unknown>, line 1)")⟩ :=
  C3_syntax_error_short_circuits syntaxErrCollab "def f(:"
    "This function returns 1." "invalid syntax (<unknown>, line 1)" rfl rfl

/-- C4: whenever every pipeline stage succeeds — summary, parse, extract,
build, serialize, render in that fixed order — both endpoints return the
summary, `flowchart_base64` equal to the base64 encoding of exactly the
rendered PNG bytes, and `error = None`. -/
theorem C4_success_pipeline (C : Collaborators) (code s : String)
    (t : Analyzer.SyntaxTreeTy) (rec : Analyzer.SList) (g : Analyzer.GraphModel)
    (dob : DotObj) (png : List Nat)
    (h1 : C.generate_ai_summary code = .ok s)
    (h2 : C.ast_parse code = .ok t)
    (h3 : C.visit_structure t = .ok rec)
    (h4 : C.build_graph_model rec = .ok g)
    (h5 : C.create_logic_flowchart g = .ok (some dob))
    (h6 : C.pipe dob = .ok png)
    (h7 : png ≠ []) :
    analyze_code_endpoint C code = ⟨s, some (b64encode png), none⟩ ∧
    analyze_code_endpoint_clarified C code = .ok ⟨s, some (b64encode png), none⟩ := by
  have h7' : png.isEmpty = false := by
    cases png with
    | nil => exact absurd rfl h7
    | cons a l => rfl
  unfold analyze_code_endpoint analyze_body
    analyze_code_endpoint_clarified analyze_body_clarified
  simp [Bind.bind, Except.bind, h1, h2, h3, h4, h5, h6, h7']

/-- C4 witness: a concrete all-success environment. -/
theorem C4_success_pipeline_witness :
    analyze_code_endpoint tinyCollab "x = 1" = ⟨"s", some (b64encode [1, 2, 3]), none⟩ ∧
    analyze_code_endpoint_clarified tinyCollab "x = 1" =
      .ok ⟨"s", some (b64encode [1, 2, 3]), none⟩ :=
  C4_success_pipeline tinyCollab "x = 1" "s" ⟨"x = 1"⟩ .nil ⟨[], []⟩ ⟨"digraph"⟩
    [1, 2, 3] rfl rfl rfl rfl rfl rfl (by decide)

/-- C5: renderer unavailability is not reported as a distinguishable
RenderError-kind failure.  In `src/code-clarified` a raising `pipe` call
escapes the endpoint uncaught (a crash); in `src/backend` empty renderer
output is flattened into the same generic error string used for every
other failure, with `flowchart_base64 = None` and no structural/graph data
in the response (the `AnalysisResult` model has no field for it). -/
theorem C5_renderer_failure_generic_or_crash :
    analyze_code_endpoint_clarified rendererDownCollab "def f():\n    return 1" =
      .error ⟨.otherError,
        "failed to execute dot, make sure the Graphviz executables are on your systems PATH"⟩ ∧
    analyze_code_endpoint rendererEmptyCollab "def f():\n    return 1" =
      ⟨"", none,
        some "An unexpected error occurred: Graphviz returned empty data. Is it installed and in your system's PATH?"⟩ := by
  exact ⟨rfl, rfl⟩

/-- C10: for every request to the `src/backend` endpoint,
`flowchart_base64` is `None` iff `error` is non-`None`, and on every
failure path the summary is the empty string. -/
theorem C10_error_flowchart_invariant (C : Collaborators) (code : String) :
    ((analyze_code_endpoint C code).flowchart_base64 = none ↔
      (analyze_code_endpoint C code).error ≠ none) ∧
    ((analyze_code_endpoint C code).error ≠ none →
      (analyze_code_endpoint C code).summary = "") := by
  unfold analyze_code_endpoint
  rcases h : analyze_body C code with e | r
  · simp
  · obtain ⟨s, png, hpng, rfl⟩ := analyze_body_ok C code r h
    simp

/-- C10 witness: a concrete failing request. -/
theorem C10_error_flowchart_invariant_witness :
    (analyze_code_endpoint summarizerDownCollab "x").summary = "" :=
  (C10_error_flowchart_invariant summarizerDownCollab "x").2 (by decide)

end Backend

namespace Analyzer

theorem connect_nodes (st : BState) (p : Option Pend) (t : Nat) :
    (connect st p t).nodes = st.nodes := by
  rcases p with _ | ⟨s, l⟩ <;> rfl

theorem connect_nextId (st : BState) (p : Option Pend) (t : Nat) :
    (connect st p t).nextId = st.nextId := by
  rcases p with _ | ⟨s, l⟩ <;> rfl

theorem addEdge_nodes (st : BState) (f t : Nat) (l : Option String) :
    (addEdge st f t l).nodes = st.nodes := rfl

theorem backStep_nodes (stB : BState) (pB : Option Pend) (c : Nat) :
    (backStep stB pB c).nodes = stB.nodes := by
  rcases pB with _ | ⟨t, _ | l⟩ <;> rfl

theorem backStep_nextId (stB : BState) (pB : Option Pend) (c : Nat) :
    (backStep stB pB c).nextId = stB.nextId := by
  rcases pB with _ | ⟨t, _ | l⟩ <;> rfl

theorem joinStep_countKind (stF : BState) (pT pF : Option Pend) (k : NodeKind)
    (h : ¬ NodeKind.process = k) :
    ((joinStep stF pT pF).1.nodes.countP fun n => decide (n.kind = k)) =
      stF.nodes.countP fun n => decide (n.kind = k) := by
  rcases pT with _ | ⟨t, tl⟩ <;> rcases pF with _ | ⟨f, fl⟩ <;>
    simp [joinStep, newNode, connect_nodes, List.countP_append, h]

mutual

theorem startCount_stmt (d : Bool) (endId : Nat) (st : BState) (p : Option Pend) (s : SNode) :
    ((buildStmt d endId st p s).1.nodes.countP fun n => decide (n.kind = NodeKind.start)) =
      (st.nodes.countP fun n => decide (n.kind = NodeKind.start)) + countFnsStmt d s := by
  cases s with
  | functionDef name params body =>
      simp only [buildStmt, countFnsStmt, connect_nodes]
      rw [startCount_seq]
      simp [newNode, List.countP_append]
      omega
  | classDef name body =>
      simp only [buildStmt, countFnsStmt]
      rw [startCount_seq]
  | sif cond thenB elseB =>
      cases d with
      | true => simp [buildStmt, countFnsStmt]
      | false =>
          simp only [buildStmt, countFnsStmt, Bool.false_eq_true, ite_false]
          rw [joinStep_countKind _ _ _ _ (by decide)]
          rw [startCount_seq, startCount_seq]
          simp [newNode, connect_nodes, List.countP_append]
          omega
  | sfor cond body =>
      cases d with
      | true => simp [buildStmt, countFnsStmt]
      | false =>
          simp only [buildStmt, countFnsStmt, Bool.false_eq_true, ite_false, backStep_nodes]
          rw [startCount_seq]
          simp [newNode, connect_nodes, List.countP_append]
  | swhile cond body =>
      cases d with
      | true => simp [buildStmt, countFnsStmt]
      | false =>
          simp only [buildStmt, countFnsStmt, Bool.false_eq_true, ite_false, backStep_nodes]
          rw [startCount_seq]
          simp [newNode, connect_nodes, List.countP_append]
  | scall target =>
      cases d <;> simp [buildStmt, countFnsStmt, connect_nodes, newNode, List.countP_append]
  | sret =>
      cases d <;>
        simp [buildStmt, countFnsStmt, connect_nodes, addEdge_nodes, newNode, List.countP_append]
  | plain label =>
      cases d <;> simp [buildStmt, countFnsStmt, connect_nodes, newNode, List.countP_append]

theorem startCount_seq (d : Bool) (endId : Nat) (st : BState) (p : Option Pend) (l : SList) :
    ((buildSeq d endId st p l).1.nodes.countP fun n => decide (n.kind = NodeKind.start)) =
      (st.nodes.countP fun n => decide (n.kind = NodeKind.start)) + countFnsSeq d l := by
  cases l with
  | nil => simp [buildSeq, countFnsSeq]
  | cons s rest =>
      simp only [buildSeq, countFnsSeq]
      rw [startCount_seq, startCount_stmt]
      omega

end

mutual

theorem stopCount_stmt (d : Bool) (endId : Nat) (st : BState) (p : Option Pend) (s : SNode) :
    ((buildStmt d endId st p s).1.nodes.countP fun n => decide (n.kind = NodeKind.stop)) =
      (st.nodes.countP fun n => decide (n.kind = NodeKind.stop)) + countFnsStmt d s := by
  cases s with
  | functionDef name params body =>
      simp only [buildStmt, countFnsStmt, connect_nodes]
      rw [stopCount_seq]
      simp [newNode, List.countP_append]
      omega
  | classDef name body =>
      simp only [buildStmt, countFnsStmt]
      rw [stopCount_seq]
  | sif cond thenB elseB =>
      cases d with
      | true => simp [buildStmt, countFnsStmt]
      | false =>
          simp only [buildStmt, countFnsStmt, Bool.false_eq_true, ite_false]
          rw [joinStep_countKind _ _ _ _ (by decide)]
          rw [stopCount_seq, stopCount_seq]
          simp [newNode, connect_nodes, List.countP_append]
          omega
  | sfor cond body =>
      cases d with
      | true => simp [buildStmt, countFnsStmt]
      | false =>
          simp only [buildStmt, countFnsStmt, Bool.false_eq_true, ite_false, backStep_nodes]
          rw [stopCount_seq]
          simp [newNode, connect_nodes, List.countP_append]
  | swhile cond body =>
      cases d with
      | true => simp [buildStmt, countFnsStmt]
      | false =>
          simp only [buildStmt, countFnsStmt, Bool.false_eq_true, ite_false, backStep_nodes]
          rw [stopCount_seq]
          simp [newNode, connect_nodes, List.countP_append]
  | scall target =>
      cases d <;> simp [buildStmt, countFnsStmt, connect_nodes, newNode, List.countP_append]
  | sret =>
      cases d <;>
        simp [buildStmt, countFnsStmt, connect_nodes, addEdge_nodes, newNode, List.countP_append]
  | plain label =>
      cases d <;> simp [buildStmt, countFnsStmt, connect_nodes, newNode, List.countP_append]

theorem stopCount_seq (d : Bool) (endId : Nat) (st : BState) (p : Option Pend) (l : SList) :
    ((buildSeq d endId st p l).1.nodes.countP fun n => decide (n.kind = NodeKind.stop)) =
      (st.nodes.countP fun n => decide (n.kind = NodeKind.stop)) + countFnsSeq d l := by
  cases l with
  | nil => simp [buildSeq, countFnsSeq]
  | cons s rest =>
      simp only [buildSeq, countFnsSeq]
      rw [stopCount_seq, stopCount_stmt]
      omega

end

mutual

theorem decCount_stmt (d : Bool) (endId : Nat) (st : BState) (p : Option Pend) (s : SNode) :
    ((buildStmt d endId st p s).1.nodes.countP fun n => decide (n.kind = NodeKind.decision)) =
      (st.nodes.countP fun n => decide (n.kind = NodeKind.decision)) +
        (countIfsStmt d s + countLoopsStmt d s) := by
  cases s with
  | functionDef name params body =>
      simp only [buildStmt, countIfsStmt, countLoopsStmt, connect_nodes]
      rw [decCount_seq]
      simp [newNode, List.countP_append]
  | classDef name body =>
      simp only [buildStmt, countIfsStmt, countLoopsStmt]
      rw [decCount_seq]
  | sif cond thenB elseB =>
      cases d with
      | true => simp [buildStmt, countIfsStmt, countLoopsStmt]
      | false =>
          simp only [buildStmt, countIfsStmt, countLoopsStmt, Bool.false_eq_true, ite_false]
          rw [joinStep_countKind _ _ _ _ (by decide)]
          rw [decCount_seq, decCount_seq]
          simp [newNode, connect_nodes, List.countP_append]
          omega
  | sfor cond body =>
      cases d with
      | true => simp [buildStmt, countIfsStmt, countLoopsStmt]
      | false =>
          simp only [buildStmt, countIfsStmt, countLoopsStmt, Bool.false_eq_true, ite_false,
            backStep_nodes]
          rw [decCount_seq]
          simp [newNode, connect_nodes, List.countP_append]
          omega
  | swhile cond body =>
      cases d with
      | true => simp [buildStmt, countIfsStmt, countLoopsStmt]
      | false =>
          simp only [buildStmt, countIfsStmt, countLoopsStmt, Bool.false_eq_true, ite_false,
            backStep_nodes]
          rw [decCount_seq]
          simp [newNode, connect_nodes, List.countP_append]
          omega
  | scall target =>
      cases d <;>
        simp [buildStmt, countIfsStmt, countLoopsStmt, connect_nodes, newNode, List.countP_append]
  | sret =>
      cases d <;>
        simp [buildStmt, countIfsStmt, countLoopsStmt, connect_nodes, addEdge_nodes, newNode,
          List.countP_append]
  | plain label =>
      cases d <;>
        simp [buildStmt, countIfsStmt, countLoopsStmt, connect_nodes, newNode, List.countP_append]

theorem decCount_seq (d : Bool) (endId : Nat) (st : BState) (p : Option Pend) (l : SList) :
    ((buildSeq d endId st p l).1.nodes.countP fun n => decide (n.kind = NodeKind.decision)) =
      (st.nodes.countP fun n => decide (n.kind = NodeKind.decision)) +
        (countIfsSeq d l + countLoopsSeq d l) := by
  cases l with
  | nil => simp [buildSeq, countIfsSeq, countLoopsSeq]
  | cons s rest =>
      simp only [buildSeq, countIfsSeq, countLoopsSeq]
      rw [decCount_seq, decCount_stmt]
      omega

end

end Analyzer

namespace Analyzer

theorem mem_edges_addEdge (st : BState) (f t : Nat) (l : Option String) (e : GEdge)
    (he : e ∈ st.edges) : e ∈ (addEdge st f t l).edges := by
  simp only [addEdge, List.mem_append]
  exact Or.inl he

theorem self_mem_addEdge (st : BState) (f t : Nat) (l : Option String) :
    (⟨f, t, l⟩ : GEdge) ∈ (addEdge st f t l).edges := by
  simp [addEdge]

theorem mem_edges_connect (st : BState) (p : Option Pend) (t : Nat) (e : GEdge)
    (he : e ∈ st.edges) : e ∈ (connect st p t).edges := by
  rcases p with _ | ⟨s, l⟩
  · exact he
  · exact mem_edges_addEdge _ _ _ _ _ he

theorem connect_some_edge (st : BState) (src : Nat) (lab : Option String) (t : Nat) :
    (⟨src, t, lab⟩ : GEdge) ∈ (connect st (some (src, lab)) t).edges :=
  self_mem_addEdge _ _ _ _

theorem mem_edges_backStep (stB : BState) (pB : Option Pend) (c : Nat) (e : GEdge)
    (he : e ∈ stB.edges) : e ∈ (backStep stB pB c).edges := by
  rcases pB with _ | ⟨t, _ | l⟩
  · exact he
  · exact mem_edges_addEdge _ _ _ _ _ he
  · exact mem_edges_addEdge _ _ _ _ _ he

theorem joinStep_mem_nodes (stF : BState) (pT pF : Option Pend) (n : GNode)
    (hn : n ∈ stF.nodes) : n ∈ (joinStep stF pT pF).1.nodes := by
  rcases pT with _ | ⟨t, tl⟩ <;> rcases pF with _ | ⟨f, fl⟩ <;>
    simp [joinStep, newNode, connect_nodes, List.mem_append] <;> tauto

theorem joinStep_mem_edges (stF : BState) (pT pF : Option Pend) (e : GEdge)
    (he : e ∈ stF.edges) : e ∈ (joinStep stF pT pF).1.edges := by
  rcases pT with _ | ⟨t, tl⟩ <;> rcases pF with _ | ⟨f, fl⟩ <;>
    simp [joinStep, newNode, connect, addEdge, List.mem_append] <;> tauto

theorem joinStep_new_incoming (stF : BState) (pT pF : Option Pend) (n : GNode)
    (hn : n ∈ (joinStep stF pT pF).1.nodes) (hnot : n ∉ stF.nodes) :
    ∃ e ∈ (joinStep stF pT pF).1.edges, e.toId = n.id := by
  rcases pT with _ | ⟨t, tl⟩ <;> rcases pF with _ | ⟨f, fl⟩
  · exact absurd hn hnot
  · simp [joinStep, newNode, connect, addEdge, List.mem_append] at hn ⊢
    rcases hn with hn | rfl
    · exact absurd hn hnot
    · exact ⟨⟨f, stF.nextId, fl⟩, Or.inr rfl, rfl⟩
  · simp [joinStep, newNode, connect, addEdge, List.mem_append] at hn ⊢
    rcases hn with hn | rfl
    · exact absurd hn hnot
    · exact ⟨⟨t, stF.nextId, tl⟩, Or.inr rfl, rfl⟩
  · simp [joinStep, newNode, connect, addEdge, List.mem_append] at hn ⊢
    rcases hn with hn | rfl
    · exact absurd hn hnot
    · exact ⟨⟨f, stF.nextId, fl⟩, Or.inr (Or.inr rfl), rfl⟩

theorem joinStep_pend_none (stF : BState) (pT pF : Option Pend)
    (h : (joinStep stF pT pF).2 = none) : pT = none ∧ pF = none := by
  rcases pT with _ | ⟨t, tl⟩ <;> rcases pF with _ | ⟨f, fl⟩ <;> simp [joinStep] at h ⊢

theorem joinStep_pend_ne (stF : BState) (pT pF : Option Pend)
    (h : ¬(pT = none ∧ pF = none)) : (joinStep stF pT pF).2 ≠ none := by
  rcases pT with _ | ⟨t, tl⟩ <;> rcases pF with _ | ⟨f, fl⟩ <;> simp [joinStep] at h ⊢

theorem orphan_id (endId : Nat) (st : BState) (p : Option Pend) (b : Bool) :
    (∀ n ∈ st.nodes, n ∈ st.nodes) ∧ (∀ e ∈ st.edges, e ∈ st.edges) ∧
    (∀ n ∈ st.nodes, n ∉ st.nodes → n.kind ≠ NodeKind.start →
      ∃ e ∈ st.edges, e.toId = n.id) ∧
    (true = false → (p ≠ none ∨ ∃ e ∈ st.edges, e.toId = endId)) ∧
    (true = false → b = true → p ≠ none) :=
  ⟨fun _ hn => hn, fun _ he => he, fun n hn hnot _ => absurd hn hnot,
    fun hd => absurd hd (by decide), fun hd => absurd hd (by decide)⟩

end Analyzer

namespace Analyzer

mutual

theorem orphan_stmt (d : Bool) (endId : Nat) (st : BState) (p : Option Pend) (s : SNode)
    (st' : BState) (p' : Option Pend) (h : buildStmt d endId st p s = (st', p'))
    (hnd : noDeadStmt d s = true) (hp : d = false → p ≠ none) :
    (∀ n ∈ st.nodes, n ∈ st'.nodes) ∧
    (∀ e ∈ st.edges, e ∈ st'.edges) ∧
    (∀ n ∈ st'.nodes, n ∉ st.nodes → n.kind ≠ NodeKind.start →
      ∃ e ∈ st'.edges, e.toId = n.id) ∧
    (d = false → (p' ≠ none ∨ ∃ e ∈ st'.edges, e.toId = endId)) ∧
    (d = false → stmtLive s = true → p' ≠ none) := by
  cases s with
  | functionDef name params body =>
      simp only [buildStmt] at h
      rcases hN1 : newNode st .start "start" with ⟨st1, sId⟩
      rw [hN1] at h
      dsimp only at h
      rcases hN2 : newNode st1 .stop "end" with ⟨st2, eId⟩
      rw [hN2] at h
      dsimp only at h
      rcases hB : buildSeq false eId st2 (some (sId, none)) body with ⟨stB, pB⟩
      rw [hB] at h
      dsimp only at h
      injection h with h1 h2
      subst h1
      subst h2
      injection hN1 with hA hB1
      subst hA
      subst hB1
      injection hN2 with hA2 hB2
      subst hA2
      subst hB2
      have hndb : noDeadSeq false body = true := by simpa [noDeadStmt] using hnd
      obtain ⟨m1, m2, m3, m4, m5⟩ :=
        orphan_seq false (st.nextId + 1 : Nat)
          ⟨st.nextId + 1 + 1,
            (st.nodes ++ [⟨st.nextId, "start", NodeKind.start⟩]) ++
              [⟨st.nextId + 1, "end", NodeKind.stop⟩], st.edges⟩
          (some (st.nextId, none)) body stB pB hB hndb (fun _ => by simp)
      refine ⟨?_, ?_, ?_, ?_, ?_⟩
      · intro n hn
        rw [connect_nodes]
        exact m1 n (by simp [List.mem_append]; tauto)
      · intro e he
        exact mem_edges_connect _ _ _ _ (m2 e he)
      · intro n hn hnot hk
        rw [connect_nodes] at hn
        by_cases hmem :
            n ∈ (st.nodes ++ [⟨st.nextId, "start", NodeKind.start⟩]) ++
              [(⟨st.nextId + 1, "end", NodeKind.stop⟩ : GNode)]
        · simp only [List.mem_append, List.mem_singleton] at hmem
          rcases hmem with (hmem | rfl) | rfl
          · exact absurd hmem hnot
          · exact absurd rfl hk
          · rcases m4 rfl with hpb | ⟨e, he, het⟩
            · rcases hpb' : pB with _ | ⟨src, lab⟩
              · exact absurd hpb' hpb
              · subst hpb'
                exact ⟨⟨src, st.nextId + 1, lab⟩, connect_some_edge _ _ _ _, rfl⟩
            · exact ⟨e, mem_edges_connect _ _ _ _ he, het⟩
        · obtain ⟨e, he, het⟩ := m3 n hn hmem hk
          exact ⟨e, mem_edges_connect _ _ _ _ he, het⟩
      · intro hd
        exact Or.inl (hp hd)
      · intro hd _
        exact hp hd
  | classDef name body =>
      simp only [buildStmt] at h
      rcases hB : buildSeq true endId st none body with ⟨stB, pB⟩
      rw [hB] at h
      dsimp only at h
      injection h with h1 h2
      subst h1
      subst h2
      have hndb : noDeadSeq true body = true := by simpa [noDeadStmt] using hnd
      obtain ⟨m1, m2, m3, m4, m5⟩ :=
        orphan_seq true endId st none body stB pB hB hndb (fun hd => absurd hd (by decide))
      refine ⟨m1, m2, m3, ?_, ?_⟩
      · intro hd
        exact Or.inl (hp hd)
      · intro hd _
        exact hp hd
  | sif cond thenB elseB =>
      cases d with
      | true =>
          simp only [buildStmt, if_true] at h
          injection h with h1 h2
          subst h1
          subst h2
          exact orphan_id endId st p _
      | false =>
          simp only [buildStmt, Bool.false_eq_true, if_false] at h
          rcases hN : newNode st .decision cond with ⟨st1, dId⟩
          rw [hN] at h
          dsimp only at h
          rcases hB1 : buildSeq false endId (connect st1 p dId)
              (some (dId, some "true")) thenB with ⟨stT, pT⟩
          rw [hB1] at h
          dsimp only at h
          rcases hB2 : buildSeq false endId stT (some (dId, some "false")) elseB with ⟨stF, pF⟩
          rw [hB2] at h
          dsimp only at h
          injection hN with hA hB'
          subst hA
          subst hB'
          simp only [noDeadStmt, Bool.false_or, Bool.and_eq_true] at hnd
          obtain ⟨hndT, hndF⟩ := hnd
          obtain ⟨t1, t2, t3, t4, t5⟩ :=
            orphan_seq false endId
              (connect ⟨st.nextId + 1, st.nodes ++ [⟨st.nextId, cond, NodeKind.decision⟩],
                st.edges⟩ p st.nextId)
              (some (st.nextId, some "true")) thenB stT pT hB1 hndT (fun _ => by simp)
          obtain ⟨f1, f2, f3, f4, f5⟩ :=
            orphan_seq false endId stT (some (st.nextId, some "false")) elseB stF pF hB2 hndF
              (fun _ => by simp)
          rcases hjs : joinStep stF pT pF with ⟨stJ, pJ⟩
          rw [hjs] at h
          injection h with h1 h2
          subst h1
          subst h2
          rcases p with _ | ⟨src, lab⟩
      -- p cannot be none
          · exact absurd rfl (hp rfl)
          · refine ⟨?_, ?_, ?_, ?_, ?_⟩
            · intro n hn
              have : n ∈ stF.nodes := by
                apply f1
                apply t1
                rw [connect_nodes]
                simp [List.mem_append]
                exact Or.inl hn
              have := joinStep_mem_nodes stF pT pF n this
              rw [hjs] at this
              exact this
            · intro e he
              have : e ∈ stF.edges := by
                apply f2
                apply t2
                exact mem_edges_connect _ _ _ _ he
              have := joinStep_mem_edges stF pT pF e this
              rw [hjs] at this
              exact this
            · intro n hn hnot hk
              by_cases hmemF : n ∈ stF.nodes
              · by_cases hmemT : n ∈ stT.nodes
                · by_cases hmemD :
                      n ∈ st.nodes ++ [(⟨st.nextId, cond, NodeKind.decision⟩ : GNode)]
                  · simp only [List.mem_append, List.mem_singleton] at hmemD
                    rcases hmemD with hmemD | rfl
                    · exact absurd hmemD hnot
                    · refine ⟨⟨src, st.nextId, lab⟩, ?_, rfl⟩
                      have he0 : (⟨src, st.nextId, lab⟩ : GEdge) ∈
                          (connect ⟨st.nextId + 1,
                            st.nodes ++ [⟨st.nextId, cond, NodeKind.decision⟩], st.edges⟩
                            (some (src, lab)) st.nextId).edges :=
                        connect_some_edge _ _ _ _
                      have he1 := f2 _ (t2 _ he0)
                      have he2 := joinStep_mem_edges stF pT pF _ he1
                      rw [hjs] at he2
                      exact he2
                  · obtain ⟨e, he, het⟩ := t3 n hmemT (by rw [connect_nodes]; exact hmemD) hk
                    have he2 := joinStep_mem_edges stF pT pF _ (f2 _ he)
                    rw [hjs] at he2
                    exact ⟨e, he2, het⟩
                · obtain ⟨e, he, het⟩ := f3 n hmemF hmemT hk
                  have he2 := joinStep_mem_edges stF pT pF _ he
                  rw [hjs] at he2
                  exact ⟨e, he2, het⟩
              · have := joinStep_new_incoming stF pT pF n (by rw [hjs]; exact hn) hmemF
                rw [hjs] at this
                exact this
            · intro _
              by_cases hTF : pT = none ∧ pF = none
              · obtain ⟨rfl, rfl⟩ := hTF
                rcases t4 rfl with hne | ⟨e, he, het⟩
                · exact absurd rfl hne
                · refine Or.inr ⟨e, ?_, het⟩
                  have he2 := joinStep_mem_edges stF none none _ (f2 _ he)
                  rw [hjs] at he2
                  exact he2
              · have := joinStep_pend_ne stF pT pF hTF
                rw [hjs] at this
                exact Or.inl this
            · intro _ hl
              simp only [stmtLive, Bool.or_eq_true] at hl
              have hTF : ¬(pT = none ∧ pF = none) := by
                rcases hl with hl | hl
                · intro ⟨hpt, _⟩
                  exact (t5 rfl hl) hpt
                · intro ⟨_, hpf⟩
                  exact (f5 rfl hl) hpf
              have := joinStep_pend_ne stF pT pF hTF
              rw [hjs] at this
              exact this
  | sfor cond body =>
      cases d with
      | true =>
          simp only [buildStmt, if_true] at h
          injection h with h1 h2
          subst h1
          subst h2
          exact orphan_id endId st p _
      | false =>
          simp only [buildStmt, Bool.false_eq_true, if_false] at h
          rcases hN : newNode st .decision cond with ⟨st1, cId⟩
          rw [hN] at h
          dsimp only at h
          rcases hB : buildSeq false endId (connect st1 p cId)
              (some (cId, some "true")) body with ⟨stB, pB⟩
          rw [hB] at h
          dsimp only at h
          injection h with h1 h2
          subst h1
          subst h2
          injection hN with hA hB'
          subst hA
          subst hB'
          have hndb : noDeadSeq false body = true := by simpa [noDeadStmt] using hnd
          obtain ⟨m1, m2, m3, m4, m5⟩ :=
            orphan_seq false endId
              (connect ⟨st.nextId + 1, st.nodes ++ [⟨st.nextId, cond, NodeKind.decision⟩],
                st.edges⟩ p st.nextId)
              (some (st.nextId, some "true")) body stB pB hB hndb (fun _ => by simp)
          rcases p with _ | ⟨src, lab⟩
          · exact absurd rfl (hp rfl)
          · refine ⟨?_, ?_, ?_, ?_, ?_⟩
            · intro n hn
              rw [backStep_nodes]
              apply m1
              rw [connect_nodes]
              simp [List.mem_append]
              exact Or.inl hn
            · intro e he
              exact mem_edges_backStep _ _ _ _ (m2 e (mem_edges_connect _ _ _ _ he))
            · intro n hn hnot hk
              rw [backStep_nodes] at hn
              by_cases hmemD : n ∈ st.nodes ++ [(⟨st.nextId, cond, NodeKind.decision⟩ : GNode)]
              · simp only [List.mem_append, List.mem_singleton] at hmemD
                rcases hmemD with hmemD | rfl
                · exact absurd hmemD hnot
                · refine ⟨⟨src, st.nextId, lab⟩, ?_, rfl⟩
                  exact mem_edges_backStep _ _ _ _
                    (m2 _ (connect_some_edge _ _ _ _))
              · obtain ⟨e, he, het⟩ := m3 n hn (by rw [connect_nodes]; exact hmemD) hk
                exact ⟨e, mem_edges_backStep _ _ _ _ he, het⟩
            · intro _
              exact Or.inl (by simp)
            · intro _ _
              simp
  | swhile cond body =>
      cases d with
      | true =>
          simp only [buildStmt, if_true] at h
          injection h with h1 h2
          subst h1
          subst h2
          exact orphan_id endId st p _
      | false =>
          simp only [buildStmt, Bool.false_eq_true, if_false] at h
          rcases hN : newNode st .decision cond with ⟨st1, cId⟩
          rw [hN] at h
          dsimp only at h
          rcases hB : buildSeq false endId (connect st1 p cId)
              (some (cId, some "true")) body with ⟨stB, pB⟩
          rw [hB] at h
          dsimp only at h
          injection h with h1 h2
          subst h1
          subst h2
          injection hN with hA hB'
          subst hA
          subst hB'
          have hndb : noDeadSeq false body = true := by simpa [noDeadStmt] using hnd
          obtain ⟨m1, m2, m3, m4, m5⟩ :=
            orphan_seq false endId
              (connect ⟨st.nextId + 1, st.nodes ++ [⟨st.nextId, cond, NodeKind.decision⟩],
                st.edges⟩ p st.nextId)
              (some (st.nextId, some "true")) body stB pB hB hndb (fun _ => by simp)
          rcases p with _ | ⟨src, lab⟩
          · exact absurd rfl (hp rfl)
          · refine ⟨?_, ?_, ?_, ?_, ?_⟩
            · intro n hn
              rw [backStep_nodes]
              apply m1
              rw [connect_nodes]
              simp [List.mem_append]
              exact Or.inl hn
            · intro e he
              exact mem_edges_backStep _ _ _ _ (m2 e (mem_edges_connect _ _ _ _ he))
            · intro n hn hnot hk
              rw [backStep_nodes] at hn
              by_cases hmemD : n ∈ st.nodes ++ [(⟨st.nextId, cond, NodeKind.decision⟩ : GNode)]
              · simp only [List.mem_append, List.mem_singleton] at hmemD
                rcases hmemD with hmemD | rfl
                · exact absurd hmemD hnot
                · refine ⟨⟨src, st.nextId, lab⟩, ?_, rfl⟩
                  exact mem_edges_backStep _ _ _ _
                    (m2 _ (connect_some_edge _ _ _ _))
              · obtain ⟨e, he, het⟩ := m3 n hn (by rw [connect_nodes]; exact hmemD) hk
                exact ⟨e, mem_edges_backStep _ _ _ _ he, het⟩
            · intro _
              exact Or.inl (by simp)
            · intro _ _
              simp
  | scall target =>
      cases d with
      | true =>
          simp only [buildStmt, if_true] at h
          injection h with h1 h2
          subst h1
          subst h2
          exact orphan_id endId st p _
      | false =>
          simp only [buildStmt, Bool.false_eq_true, if_false] at h
          injection h with h1 h2
          subst h1
          subst h2
          rcases p with _ | ⟨src, lab⟩
          · exact absurd rfl (hp rfl)
          · refine ⟨?_, ?_, ?_, ?_, ?_⟩
            · intro n hn
              rw [connect_nodes]
              simp [newNode, List.mem_append]
              exact Or.inl hn
            · intro e he
              exact mem_edges_connect _ _ _ _ he
            · intro n hn hnot hk
              rw [connect_nodes] at hn
              simp only [newNode, List.mem_append, List.mem_singleton] at hn
              rcases hn with hn | rfl
              · exact absurd hn hnot
              · exact ⟨⟨src, st.nextId, lab⟩, connect_some_edge _ _ _ _, rfl⟩
            · intro _
              exact Or.inl (by simp)
            · intro _ _
              simp
  | sret =>
      cases d with
      | true =>
          simp only [buildStmt, if_true] at h
          injection h with h1 h2
          subst h1
          subst h2
          exact orphan_id endId st p _
      | false =>
          simp only [buildStmt, Bool.false_eq_true, if_false] at h
          injection h with h1 h2
          subst h1
          subst h2
          rcases p with _ | ⟨src, lab⟩
          · exact absurd rfl (hp rfl)
          · refine ⟨?_, ?_, ?_, ?_, ?_⟩
            · intro n hn
              rw [addEdge_nodes, connect_nodes]
              simp [newNode, List.mem_append]
              exact Or.inl hn
            · intro e he
              exact mem_edges_addEdge _ _ _ _ _ (mem_edges_connect _ _ _ _ he)
            · intro n hn hnot hk
              rw [addEdge_nodes, connect_nodes] at hn
              simp only [newNode, List.mem_append, List.mem_singleton] at hn
              rcases hn with hn | rfl
              · exact absurd hn hnot
              · exact ⟨⟨src, st.nextId, lab⟩,
                  mem_edges_addEdge _ _ _ _ _ (connect_some_edge _ _ _ _), rfl⟩
            · intro _
              exact Or.inr ⟨⟨st.nextId, endId, none⟩, self_mem_addEdge _ _ _ _, rfl⟩
            · intro _ hl
              simp [stmtLive] at hl
  | plain label =>
      cases d with
      | true =>
          simp only [buildStmt, if_true] at h
          injection h with h1 h2
          subst h1
          subst h2
          exact orphan_id endId st p _
      | false =>
          simp only [buildStmt, Bool.false_eq_true, if_false] at h
          injection h with h1 h2
          subst h1
          subst h2
          rcases p with _ | ⟨src, lab⟩
          · exact absurd rfl (hp rfl)
          · refine ⟨?_, ?_, ?_, ?_, ?_⟩
            · intro n hn
              rw [connect_nodes]
              simp [newNode, List.mem_append]
              exact Or.inl hn
            · intro e he
              exact mem_edges_connect _ _ _ _ he
            · intro n hn hnot hk
              rw [connect_nodes] at hn
              simp only [newNode, List.mem_append, List.mem_singleton] at hn
              rcases hn with hn | rfl
              · exact absurd hn hnot
              · exact ⟨⟨src, st.nextId, lab⟩, connect_some_edge _ _ _ _, rfl⟩
            · intro _
              exact Or.inl (by simp)
            · intro _ _
              simp

theorem orphan_seq (d : Bool) (endId : Nat) (st : BState) (p : Option Pend) (l : SList)
    (st' : BState) (p' : Option Pend) (h : buildSeq d endId st p l = (st', p'))
    (hnd : noDeadSeq d l = true) (hp : d = false → p ≠ none) :
    (∀ n ∈ st.nodes, n ∈ st'.nodes) ∧
    (∀ e ∈ st.edges, e ∈ st'.edges) ∧
    (∀ n ∈ st'.nodes, n ∉ st.nodes → n.kind ≠ NodeKind.start →
      ∃ e ∈ st'.edges, e.toId = n.id) ∧
    (d = false → (p' ≠ none ∨ ∃ e ∈ st'.edges, e.toId = endId)) ∧
    (d = false → seqLive l = true → p' ≠ none) := by
  cases l with
  | nil =>
      simp only [buildSeq] at h
      injection h with h1 h2
      subst h1
      subst h2
      refine ⟨fun _ hn => hn, fun _ he => he, fun n hn hnot _ => absurd hn hnot, ?_, ?_⟩
      · intro hd
        exact Or.inl (hp hd)
      · intro hd _
        exact hp hd
  | cons s rest =>
      simp only [buildSeq] at h
      rcases hmid : buildStmt d endId st p s with ⟨mid, pmid⟩
      rw [hmid] at h
      dsimp only at h
      cases rest with
      | nil =>
          have hnds : noDeadStmt d s = true := by simpa [noDeadSeq] using hnd
          simp only [buildSeq] at h
          injection h with h1 h2
          subst h1
          subst h2
          obtain ⟨m1, m2, m3, m4, m5⟩ := orphan_stmt d endId st p s _ _ hmid hnds hp
          refine ⟨m1, m2, m3, m4, ?_⟩
          intro hd hl
          exact m5 hd (by simpa [seqLive] using hl)
      | cons s2 rest2 =>
          simp only [noDeadSeq, Bool.and_eq_true, Bool.or_eq_true] at hnd
          obtain ⟨⟨hnds, hlive⟩, hndr⟩ := hnd
          obtain ⟨m1, m2, m3, m4, m5⟩ := orphan_stmt d endId st p s _ _ hmid hnds hp
          have hp2 : d = false → pmid ≠ none := by
            intro hd
            rcases hlive with hlt | hls
            · rw [hd] at hlt
              exact absurd hlt (by decide)
            · exact m5 hd hls
          obtain ⟨r1, r2, r3, r4, r5⟩ :=
            orphan_seq d endId mid pmid (.cons s2 rest2) st' p' h
              (by simpa [noDeadSeq] using hndr) hp2
          refine ⟨fun n hn => r1 n (m1 n hn), fun e he => r2 e (m2 e he), ?_, r4, ?_⟩
          · intro n hn hnot hk
            by_cases hmem : n ∈ mid.nodes
            · obtain ⟨e, he, het⟩ := m3 n hmem hnot hk
              exact ⟨e, r2 e he, het⟩
            · exact r3 n hn hmem hk
          · intro hd hl
            exact r5 hd (by simpa [seqLive] using hl)

end

end Analyzer

namespace Analyzer

theorem countFns_defsOnly : ∀ (r : SList), hasFlowStmt r = false →
    countFnsSeq true r = countFnsSeq false r
  | .nil, _ => rfl
  | .cons s rest, hf => by
      simp only [hasFlowStmt, Bool.or_eq_false_iff] at hf
      obtain ⟨hf1, hf2⟩ := hf
      have ih := countFns_defsOnly rest hf2
      cases s with
      | functionDef name params body => simp [countFnsSeq, countFnsStmt, ih]
      | classDef name body => simp [countFnsSeq, countFnsStmt, ih]
      | sif cond thenB elseB => simp [isFlowStmt] at hf1
      | sfor cond body => simp [isFlowStmt] at hf1
      | swhile cond body => simp [isFlowStmt] at hf1
      | scall target => simp [isFlowStmt] at hf1
      | sret => simp [isFlowStmt] at hf1
      | plain label => simp [isFlowStmt] at hf1

theorem noDead_defsOnly : ∀ (r : SList), hasFlowStmt r = false →
    noDeadSeq true r = noDeadSeq false r
  | .nil, _ => rfl
  | .cons s .nil, hf => by
      cases s with
      | functionDef name params body => simp [noDeadSeq, noDeadStmt]
      | classDef name body => simp [noDeadSeq, noDeadStmt]
      | sif cond thenB elseB => simp [hasFlowStmt, isFlowStmt] at hf
      | sfor cond body => simp [hasFlowStmt, isFlowStmt] at hf
      | swhile cond body => simp [hasFlowStmt, isFlowStmt] at hf
      | scall target => simp [hasFlowStmt, isFlowStmt] at hf
      | sret => simp [hasFlowStmt, isFlowStmt] at hf
      | plain label => simp [hasFlowStmt, isFlowStmt] at hf
  | .cons s (.cons s2 rest), hf => by
      simp only [hasFlowStmt, Bool.or_eq_false_iff] at hf
      obtain ⟨hf1, hf2⟩ := hf
      have ih := noDead_defsOnly (.cons s2 rest) (by
        simp only [hasFlowStmt, Bool.or_eq_false_iff]
        exact hf2)
      cases s with
      | functionDef name params body => simp [noDeadSeq, noDeadStmt, stmtLive, ih]
      | classDef name body => simp [noDeadSeq, noDeadStmt, stmtLive, ih]
      | sif cond thenB elseB => simp [isFlowStmt] at hf1
      | sfor cond body => simp [isFlowStmt] at hf1
      | swhile cond body => simp [isFlowStmt] at hf1
      | scall target => simp [isFlowStmt] at hf1
      | sret => simp [isFlowStmt] at hf1
      | plain label => simp [isFlowStmt] at hf1

end Analyzer

namespace Analyzer

/-- C7: for every structure record with at least one function and no
unreachable code after a `Return` (the claim's explicit exception), the
built GraphModel has exactly one start and one end node per scope (each
function scope, plus the module scope when top-level flow statements
exist — so at least one end node per function), and every node other than
a start node has at least one incoming edge. -/
theorem C7_graph_invariants (r : SList) (g : GraphModel)
    (hb : build_graph_model r = .ok g)
    (hnd : noDeadSeq false r = true)
    (hfn : 1 ≤ countFnsSeq false r) :
    countKind g NodeKind.start = numScopes r ∧
    countKind g NodeKind.stop = numScopes r ∧
    ∀ n ∈ g.nodes, n.kind ≠ NodeKind.start → hasIncomingB g n.id = true := by
  have hne : ¬(countFnsSeq false r = 0 && !hasFlowStmt r) = true := by
    simp only [Bool.and_eq_true, decide_eq_true_eq, Bool.not_eq_true]
    intro ⟨h0, _⟩
    omega
  unfold build_graph_model at hb
  rw [if_neg hne] at hb
  by_cases hflow : hasFlowStmt r = true
  · rw [if_pos hflow] at hb
    simp only [newNode] at hb
    rcases hB : buildSeq false (0 + 1)
        (⟨0 + 1 + 1, [] ++ [⟨0, "start", NodeKind.start⟩] ++ [⟨0 + 1, "end", NodeKind.stop⟩],
          []⟩ : BState)
        (some (0, none)) r with ⟨res1, res2⟩
    rw [hB] at hb
    dsimp only at hb
    injection hb with hg
    subst hg
    have hsc := startCount_seq false (0 + 1)
        (⟨0 + 1 + 1, [] ++ [⟨0, "start", NodeKind.start⟩] ++ [⟨0 + 1, "end", NodeKind.stop⟩],
          []⟩ : BState) (some (0, none)) r
    rw [hB] at hsc
    have htc := stopCount_seq false (0 + 1)
        (⟨0 + 1 + 1, [] ++ [⟨0, "start", NodeKind.start⟩] ++ [⟨0 + 1, "end", NodeKind.stop⟩],
          []⟩ : BState) (some (0, none)) r
    rw [hB] at htc
    obtain ⟨o1, o2, o3, o4, o5⟩ := orphan_seq false (0 + 1)
        (⟨0 + 1 + 1, [] ++ [⟨0, "start", NodeKind.start⟩] ++ [⟨0 + 1, "end", NodeKind.stop⟩],
          []⟩ : BState) (some (0, none)) r res1 res2 hB hnd (by simp)
    refine ⟨?_, ?_, ?_⟩
    · simp only [countKind, connect_nodes]
      rw [hsc]
      simp [numScopes, hflow, List.countP_append, List.countP_cons]
      omega
    · simp only [countKind, connect_nodes]
      rw [htc]
      simp [numScopes, hflow, List.countP_append, List.countP_cons]
      omega
    · intro n hn hk
      simp only [connect_nodes] at hn
      simp only [hasIncomingB, List.any_eq_true, decide_eq_true_eq]
      by_cases hmem : n ∈
          ([] ++ [⟨0, "start", NodeKind.start⟩] ++ [⟨0 + 1, "end", NodeKind.stop⟩] : List GNode)
      · simp only [List.nil_append, List.mem_append, List.mem_singleton] at hmem
        rcases hmem with rfl | rfl
        · exact absurd rfl hk
        · rcases res2 with _ | ⟨src, lab⟩
          · rcases o4 rfl with hne2 | ⟨e, he, het⟩
            · exact absurd rfl hne2
            · exact ⟨e, mem_edges_connect _ _ _ _ he, het⟩
          · exact ⟨⟨src, 0 + 1, lab⟩, connect_some_edge _ _ _ _, rfl⟩
      · obtain ⟨e, he, het⟩ := o3 n hn hmem hk
        exact ⟨e, mem_edges_connect _ _ _ _ he, het⟩
  · rw [if_neg hflow] at hb
    dsimp only at hb
    rcases hB : buildSeq true 0 (⟨0, [], []⟩ : BState) none r with ⟨res1, res2⟩
    rw [hB] at hb
    dsimp only at hb
    injection hb with hg
    subst hg
    have hfalse : hasFlowStmt r = false := by
      rcases h0 : hasFlowStmt r with _ | _
      · rfl
      · exact absurd h0 hflow
    have hsc := startCount_seq true 0 (⟨0, [], []⟩ : BState) none r
    rw [hB] at hsc
    have htc := stopCount_seq true 0 (⟨0, [], []⟩ : BState) none r
    rw [hB] at htc
    obtain ⟨o1, o2, o3, o4, o5⟩ := orphan_seq true 0 (⟨0, [], []⟩ : BState) none r res1 res2 hB
      (by rw [noDead_defsOnly r hfalse]; exact hnd) (fun hd => absurd hd (by decide))
    refine ⟨?_, ?_, ?_⟩
    · simp only [countKind]
      rw [hsc, countFns_defsOnly r hfalse]
      simp [numScopes, hfalse]
    · simp only [countKind]
      rw [htc, countFns_defsOnly r hfalse]
      simp [numScopes, hfalse]
    · intro n hn hk
      simp only [hasIncomingB, List.any_eq_true, decide_eq_true_eq]
      exact o3 n hn (by simp) hk

end Analyzer

namespace Analyzer

/-- C7 witness: the one-function record `def f(): return`. -/
theorem C7_graph_invariants_witness :
    countKind
      ⟨[⟨0, "start", NodeKind.start⟩, ⟨1, "end", NodeKind.stop⟩,
          ⟨2, "return", NodeKind.process⟩],
        [⟨0, 2, none⟩, ⟨2, 1, none⟩]⟩ NodeKind.start =
      numScopes (.cons (.functionDef "f" [] (.cons .sret .nil)) .nil) ∧
    countKind
      ⟨[⟨0, "start", NodeKind.start⟩, ⟨1, "end", NodeKind.stop⟩,
          ⟨2, "return", NodeKind.process⟩],
        [⟨0, 2, none⟩, ⟨2, 1, none⟩]⟩ NodeKind.stop =
      numScopes (.cons (.functionDef "f" [] (.cons .sret .nil)) .nil) ∧
    ∀ n ∈ (⟨[⟨0, "start", NodeKind.start⟩, ⟨1, "end", NodeKind.stop⟩,
          ⟨2, "return", NodeKind.process⟩],
        [⟨0, 2, none⟩, ⟨2, 1, none⟩]⟩ : GraphModel).nodes,
      n.kind ≠ NodeKind.start →
        hasIncomingB
          ⟨[⟨0, "start", NodeKind.start⟩, ⟨1, "end", NodeKind.stop⟩,
              ⟨2, "return", NodeKind.process⟩],
            [⟨0, 2, none⟩, ⟨2, 1, none⟩]⟩ n.id = true :=
  C7_graph_invariants (.cons (.functionDef "f" [] (.cons .sret .nil)) .nil) _ rfl
    (by decide) (by decide)

/-- C9: the Diagram Serializer is deterministic — two calls on the same
GraphModel are the very same pure computation, hence byte-identical — and
it never fails on a well-formed GraphModel (every edge endpoint an
existing node id). -/
theorem C9_serializer_deterministic_total (g : GraphModel) (h : wellFormedB g = true) :
    create_logic_flowchart g = create_logic_flowchart g ∧
    ∃ s, create_logic_flowchart g = some s := by
  refine ⟨rfl, ?_⟩
  unfold create_logic_flowchart
  rw [if_pos h]
  exact ⟨_, rfl⟩

/-- C9 witness: a concrete two-node model. -/
theorem C9_serializer_deterministic_total_witness :
    create_logic_flowchart
        ⟨[⟨0, "start", NodeKind.start⟩, ⟨1, "end", NodeKind.stop⟩],
          [⟨0, 1, none⟩]⟩ =
      create_logic_flowchart
        ⟨[⟨0, "start", NodeKind.start⟩, ⟨1, "end", NodeKind.stop⟩],
          [⟨0, 1, none⟩]⟩ ∧
    ∃ s, create_logic_flowchart
        ⟨[⟨0, "start", NodeKind.start⟩, ⟨1, "end", NodeKind.stop⟩],
          [⟨0, 1, none⟩]⟩ = some s :=
  C9_serializer_deterministic_total _ (by decide)

end Analyzer

namespace Analyzer

theorem outDeg_append (es1 es2 : List GEdge) (i : Nat) :
    outDeg (es1 ++ es2) i = outDeg es1 i + outDeg es2 i :=
  List.countP_append _ _ _

theorem outDegL_append (es1 es2 : List GEdge) (i : Nat) (l : Option String) :
    outDegL (es1 ++ es2) i l = outDegL es1 i l + outDegL es2 i l :=
  List.countP_append _ _ _

theorem outDeg_nil (i : Nat) : outDeg [] i = 0 := rfl

theorem outDegL_nil (i : Nat) (l : Option String) : outDegL [] i l = 0 := rfl

theorem outDeg_single_eq (s0 t : Nat) (l : Option String) :
    outDeg [⟨s0, t, l⟩] s0 = 1 := by
  simp [outDeg, List.countP_cons]

theorem outDeg_single_ne (f t i : Nat) (l : Option String) (h : f ≠ i) :
    outDeg [⟨f, t, l⟩] i = 0 := by
  simp [outDeg, List.countP_cons, h]

theorem outDegL_single_eq (s0 t : Nat) (l : Option String) :
    outDegL [⟨s0, t, l⟩] s0 l = 1 := by
  simp [outDegL, List.countP_cons]

theorem outDegL_single_ne_label (f t i : Nat) (l l' : Option String) (h : ¬(f = i ∧ l = l')) :
    outDegL [⟨f, t, l⟩] i l' = 0 := by
  simp only [outDegL, List.countP_cons, List.countP_nil]
  rw [if_neg]
  simp only [decide_eq_true_eq]
  exact h

theorem outDeg_eq_zero (es : List GEdge) (i : Nat) (h : ∀ e ∈ es, e.fromId ≠ i) :
    outDeg es i = 0 := by
  apply List.countP_eq_zero.mpr
  intro e he
  simp only [decide_eq_true_eq]
  exact h e he

theorem outDegL_le (es : List GEdge) (i : Nat) (l : Option String) :
    outDegL es i l ≤ outDeg es i := by
  apply List.countP_mono_left
  intro e _ he
  simp only [decide_eq_true_eq] at he ⊢
  exact he.1

theorem outDegL_eq_zero_of_outDeg (es : List GEdge) (i : Nat) (l : Option String)
    (h : outDeg es i = 0) : outDegL es i l = 0 :=
  Nat.le_zero.mp (h ▸ outDegL_le es i l)

theorem outDegL_pair_le (es : List GEdge) (i : Nat) (l1 l2 : Option String) (hne : l1 ≠ l2) :
    outDegL es i l1 + outDegL es i l2 ≤ outDeg es i := by
  induction es with
  | nil => simp [outDegL, outDeg]
  | cons e rest ih =>
      simp only [outDegL, outDeg, List.countP_cons] at ih ⊢
      by_cases h1 : e.fromId = i ∧ e.label = l1 <;>
        by_cases h2 : e.fromId = i ∧ e.label = l2 <;>
        by_cases h3 : e.fromId = i
      all_goals try (exact absurd (h1.2.symm.trans h2.2) hne)
      all_goals simp_all
      all_goals omega

theorem mem_addEdge_cases (st : BState) (f t : Nat) (l : Option String) (e : GEdge)
    (he : e ∈ (addEdge st f t l).edges) : e ∈ st.edges ∨ e = ⟨f, t, l⟩ := by
  simpa [addEdge] using he

theorem mem_connect_cases (st : BState) (p : Option Pend) (t : Nat) (e : GEdge)
    (he : e ∈ (connect st p t).edges) :
    e ∈ st.edges ∨ ∃ src lab, p = some (src, lab) ∧ e = ⟨src, t, lab⟩ := by
  rcases p with _ | ⟨src, lab⟩
  · exact Or.inl he
  · rcases mem_addEdge_cases _ _ _ _ _ he with h | h
    · exact Or.inl h
    · exact Or.inr ⟨src, lab, rfl, h⟩

theorem loopEdges_addEdge (st : BState) (f t : Nat) (l : Option String) :
    loopEdges (addEdge st f t l).edges =
      loopEdges st.edges + (if l = some "loop" then 1 else 0) := by
  by_cases hl : l = some "loop" <;>
    simp [addEdge, loopEdges, List.countP_append, List.countP_cons, hl]

theorem loopEdges_connect (st : BState) (p : Option Pend) (t : Nat)
    (hpl : ∀ s0, p ≠ some (s0, some "loop")) :
    loopEdges (connect st p t).edges = loopEdges st.edges := by
  rcases p with _ | ⟨src, lab⟩
  · rfl
  · have hl : ¬ lab = some "loop" := by
      intro hh
      exact hpl src (by rw [hh])
    rw [connect, loopEdges_addEdge]
    simp [hl]

theorem joinStep_loopEdges (stF : BState) (pT pF : Option Pend)
    (hT : ∀ s0, pT ≠ some (s0, some "loop"))
    (hF : ∀ s0, pF ≠ some (s0, some "loop")) :
    loopEdges (joinStep stF pT pF).1.edges = loopEdges stF.edges := by
  rcases pT with _ | ⟨t, tl⟩ <;> rcases pF with _ | ⟨f, fl⟩
  · rfl
  · have hfl : ¬ fl = some "loop" := fun hh => hF f (by rw [hh])
    simp only [joinStep, newNode, connect]
    rw [loopEdges_addEdge]
    simp [hfl]
  · have htl : ¬ tl = some "loop" := fun hh => hT t (by rw [hh])
    simp only [joinStep, newNode, connect]
    rw [loopEdges_addEdge]
    simp [htl]
  · have htl : ¬ tl = some "loop" := fun hh => hT t (by rw [hh])
    have hfl : ¬ fl = some "loop" := fun hh => hF f (by rw [hh])
    simp only [joinStep, newNode, connect]
    rw [loopEdges_addEdge, loopEdges_addEdge]
    simp [htl, hfl]

theorem joinStep_mem_edge_cases (stF : BState) (pT pF : Option Pend) (e : GEdge)
    (he : e ∈ (joinStep stF pT pF).1.edges) :
    e ∈ stF.edges ∨
      (∃ src lab, pT = some (src, lab) ∧ e = ⟨src, stF.nextId, lab⟩) ∨
      (∃ src lab, pF = some (src, lab) ∧ e = ⟨src, stF.nextId, lab⟩) := by
  rcases pT with _ | ⟨t, tl⟩ <;> rcases pF with _ | ⟨f, fl⟩
  · exact Or.inl he
  · simp only [joinStep, newNode, connect] at he
    rcases mem_addEdge_cases _ _ _ _ _ he with h | h
    · exact Or.inl h
    · exact Or.inr (Or.inr ⟨f, fl, rfl, h⟩)
  · simp only [joinStep, newNode, connect] at he
    rcases mem_addEdge_cases _ _ _ _ _ he with h | h
    · exact Or.inl h
    · exact Or.inr (Or.inl ⟨t, tl, rfl, h⟩)
  · simp only [joinStep, newNode, connect] at he
    rcases mem_addEdge_cases _ _ _ _ _ he with h | h
    · rcases mem_addEdge_cases _ _ _ _ _ h with h2 | h2
      · exact Or.inl h2
      · exact Or.inr (Or.inl ⟨t, tl, rfl, h2⟩)
    · exact Or.inr (Or.inr ⟨f, fl, rfl, h⟩)

theorem tail_simple : ∀ (l : SList) (endId : Nat) (st : BState) (p : Option Pend)
    (st' : BState) (p' : Option Pend), buildSeq false endId st p l = (st', p') →
    endsWithSimple l = true → ∃ t, p' = some (t, none)
  | .nil, _, _, _, _, _, _, hs => by simp [endsWithSimple] at hs
  | .cons s .nil, endId, st, p, st', p', h, hs => by
      simp only [buildSeq] at h
      rcases hmid : buildStmt false endId st p s with ⟨mid, pmid⟩
      rw [hmid] at h
      dsimp only at h
      injection h with h1 h2
      subst h1
      subst h2
      cases s with
      | plain label =>
          simp only [buildStmt, Bool.false_eq_true, if_false] at hmid
          injection hmid with hm1 hm2
          exact ⟨_, hm2.symm⟩
      | scall target =>
          simp only [buildStmt, Bool.false_eq_true, if_false] at hmid
          injection hmid with hm1 hm2
          exact ⟨_, hm2.symm⟩
      | functionDef name params body => simp [endsWithSimple] at hs
      | classDef name body => simp [endsWithSimple] at hs
      | sif cond thenB elseB => simp [endsWithSimple] at hs
      | sfor cond body => simp [endsWithSimple] at hs
      | swhile cond body => simp [endsWithSimple] at hs
      | sret => simp [endsWithSimple] at hs
  | .cons s (.cons s2 rest), endId, st, p, st', p', h, hs => by
      simp only [buildSeq] at h
      rcases hmid : buildStmt false endId st p s with ⟨mid, pmid⟩
      rw [hmid] at h
      dsimp only at h
      exact tail_simple (.cons s2 rest) endId mid pmid st' p' h
        (by simpa [endsWithSimple] using hs)

end Analyzer

namespace Analyzer

theorem connect_edges_decomp (st : BState) (p : Option Pend) (t : Nat) :
    (connect st p t).edges = st.edges ++ pendEdges p t := by
  rcases p with _ | ⟨s, l⟩
  · simp [connect, pendEdges]
  · simp [connect, addEdge, pendEdges]

theorem backStep_edges_decomp (stB : BState) (pB : Option Pend) (c : Nat) :
    (backStep stB pB c).edges = stB.edges ++ backEdges pB c := by
  rcases pB with _ | ⟨t, _ | l⟩
  · simp [backStep, backEdges]
  · simp [backStep, addEdge, backEdges]
  · simp [backStep, addEdge, backEdges]

theorem joinStep_decomp (stF : BState) (pT pF : Option Pend) :
    (pT = none ∧ pF = none ∧ joinStep stF pT pF = (stF, none)) ∨
    (¬(pT = none ∧ pF = none) ∧
      (joinStep stF pT pF).1.nodes =
        stF.nodes ++ [⟨stF.nextId, "join", NodeKind.process⟩] ∧
      (joinStep stF pT pF).1.edges =
        stF.edges ++ (pendEdges pT stF.nextId ++ pendEdges pF stF.nextId) ∧
      (joinStep stF pT pF).1.nextId = stF.nextId + 1 ∧
      (joinStep stF pT pF).2 = some (stF.nextId, none)) := by
  rcases pT with _ | ⟨t, tl⟩ <;> rcases pF with _ | ⟨f, fl⟩
  · exact Or.inl ⟨rfl, rfl, rfl⟩
  · exact Or.inr ⟨by simp, by simp [joinStep, newNode, connect, addEdge_nodes, pendEdges],
      by simp [joinStep, newNode, connect, addEdge, pendEdges],
      by simp [joinStep, newNode, connect, addEdge], by simp [joinStep, newNode, connect]⟩
  · exact Or.inr ⟨by simp, by simp [joinStep, newNode, connect, addEdge_nodes, pendEdges],
      by simp [joinStep, newNode, connect, addEdge, pendEdges],
      by simp [joinStep, newNode, connect, addEdge], by simp [joinStep, newNode, connect]⟩
  · exact Or.inr ⟨by simp, by simp [joinStep, newNode, connect, addEdge_nodes, pendEdges],
      by simp [joinStep, newNode, connect, addEdge, pendEdges],
      by simp [joinStep, newNode, connect, addEdge], by simp [joinStep, newNode, connect]⟩

end Analyzer

namespace Analyzer

theorem outSpec_leaf (st : BState) (p : Option Pend) (lbl : String) (k : NodeKind)
    (st' : BState) (p' : Option Pend)
    (hst : connect (newNode st k lbl).1 p (newNode st k lbl).2 = st')
    (hp : (some (st.nextId, none) : Option Pend) = p')
    (hk : k ≠ NodeKind.decision)
    (hpv : ∀ s0 l0, p = some (s0, l0) → s0 < st.nextId) :
    OutSpec false st p st' p' := by
  subst hst
  subst hp
  refine ⟨?_, ?_, ?_, ?_, [⟨st.nextId, lbl, k⟩], pendEdges p st.nextId, ?_, ?_, ?_, ?_, ?_, ?_⟩
  · rw [connect_nextId]
    simp [newNode]
  · intro s0 l0 hh
    simp only [Option.some.injEq, Prod.mk.injEq] at hh
    rw [connect_nextId]
    simp only [newNode]
    omega
  · right
    intro s0 l0 hh
    simp only [Option.some.injEq, Prod.mk.injEq] at hh
    omega
  · intro hd
    simp at hd
  · rw [connect_nodes]
    simp [newNode]
  · rw [connect_edges_decomp]
    simp [newNode]
  · intro n hn
    simp only [List.mem_singleton] at hn
    subst hn
    rw [connect_nextId]
    simp [newNode]
  · intro e he
    rw [connect_nextId]
    simp only [newNode]
    rcases p with _ | ⟨src, lab⟩
    · simp [pendEdges] at he
    · simp only [pendEdges, List.mem_singleton] at he
      subst he
      dsimp only
      have := hpv src lab rfl
      exact ⟨Or.inl ⟨lab, rfl⟩, by omega⟩
  · intro s0 l0 hp0
    subst hp0
    right
    have hs0 := hpv s0 l0 rfl
    refine ⟨?_, ?_, ?_⟩
    · simp only [pendEdges]
      rw [outDeg_single_eq]
    · simp only [pendEdges]
      rw [outDegL_single_eq]
    · intro lab hh
      simp only [Option.some.injEq, Prod.mk.injEq] at hh
      omega
  · intro n hn hkk
    simp only [List.mem_singleton] at hn
    subst hn
    exact absurd hkk hk

end Analyzer

namespace Analyzer

mutual

theorem loopCount_stmt (d : Bool) (endId : Nat) (st : BState) (p : Option Pend) (s : SNode)
    (st' : BState) (p' : Option Pend) (h : buildStmt d endId st p s = (st', p'))
    (hgl : goodLoopsStmt d s = true)
    (hpl : ∀ s0, p ≠ some (s0, some "loop")) :
    loopEdges st'.edges = loopEdges st.edges + countLoopsStmt d s ∧
    (∀ s0, p' ≠ some (s0, some "loop")) ∧
    (∀ n ∈ st.nodes, n ∈ st'.nodes) ∧
    (∀ e ∈ st'.edges, e ∈ st.edges ∨ ¬ e.label = some "loop" ∨
      ∃ n ∈ st'.nodes, n.id = e.toId ∧ n.kind = NodeKind.decision) := by
  cases s with
  | functionDef name params body =>
      simp only [buildStmt] at h
      rcases hN1 : newNode st .start "start" with ⟨st1, sId⟩
      rw [hN1] at h
      dsimp only at h
      rcases hN2 : newNode st1 .stop "end" with ⟨st2, eId⟩
      rw [hN2] at h
      dsimp only at h
      rcases hB : buildSeq false eId st2 (some (sId, none)) body with ⟨stB, pB⟩
      rw [hB] at h
      dsimp only at h
      injection h with h1 h2
      subst h1
      subst h2
      injection hN1 with hA hB1
      subst hA
      subst hB1
      injection hN2 with hA2 hB2
      subst hA2
      subst hB2
      have hglb : goodLoopsSeq false body = true := by simpa [goodLoopsStmt] using hgl
      obtain ⟨c1, c2, c3, c4⟩ :=
        loopCount_seq false (st.nextId + 1)
          ⟨st.nextId + 1 + 1,
            (st.nodes ++ [⟨st.nextId, "start", NodeKind.start⟩]) ++
              [⟨st.nextId + 1, "end", NodeKind.stop⟩], st.edges⟩
          (some (st.nextId, none)) body stB pB hB hglb
          (by intro s0 hh; simp at hh)
      refine ⟨?_, hpl, ?_, ?_⟩
      · rw [loopEdges_connect _ _ _ c2, c1]
        rfl
      · intro n hn
        rw [connect_nodes]
        exact c3 n (by simp [List.mem_append]; tauto)
      · intro e he
        rcases mem_connect_cases _ _ _ _ he with hin | ⟨src, lab, hsome, rfl⟩
        · rcases c4 e hin with hin2 | hnl | ⟨n, hn, hni, hnk⟩
          · exact Or.inl hin2
          · exact Or.inr (Or.inl hnl)
          · exact Or.inr (Or.inr ⟨n, by rw [connect_nodes]; exact hn, hni, hnk⟩)
        · have : ¬ lab = some "loop" := by
            intro hh
            subst hh
            exact c2 src hsome
          exact Or.inr (Or.inl this)
  | classDef name body =>
      simp only [buildStmt] at h
      rcases hB : buildSeq true endId st none body with ⟨stB, pB⟩
      rw [hB] at h
      dsimp only at h
      injection h with h1 h2
      subst h1
      subst h2
      have hglb : goodLoopsSeq true body = true := by simpa [goodLoopsStmt] using hgl
      obtain ⟨c1, c2, c3, c4⟩ :=
        loopCount_seq true endId st none body stB pB hB hglb (by intro s0 hh; simp at hh)
      exact ⟨by rw [c1]; rfl, hpl, c3, c4⟩
  | sif cond thenB elseB =>
      cases d with
      | true =>
          simp only [buildStmt, if_true] at h
          injection h with h1 h2
          subst h1
          subst h2
          exact ⟨by simp [countLoopsStmt], hpl, fun n hn => hn, fun e he => Or.inl he⟩
      | false =>
          simp only [buildStmt, Bool.false_eq_true, if_false] at h
          rcases hN : newNode st .decision cond with ⟨st1, dId⟩
          rw [hN] at h
          dsimp only at h
          rcases hB1 : buildSeq false endId (connect st1 p dId)
              (some (dId, some "true")) thenB with ⟨stT, pT⟩
          rw [hB1] at h
          dsimp only at h
          rcases hB2 : buildSeq false endId stT (some (dId, some "false")) elseB with ⟨stF, pF⟩
          rw [hB2] at h
          dsimp only at h
          injection hN with hA hB'
          subst hA
          subst hB'
          simp only [goodLoopsStmt, Bool.false_or, Bool.and_eq_true] at hgl
          obtain ⟨hglT, hglF⟩ := hgl
          obtain ⟨t1, t2, t3, t4⟩ :=
            loopCount_seq false endId
              (connect ⟨st.nextId + 1, st.nodes ++ [⟨st.nextId, cond, NodeKind.decision⟩],
                st.edges⟩ p st.nextId)
              (some (st.nextId, some "true")) thenB stT pT hB1 hglT
              (by intro s0 hh; simp at hh)
          obtain ⟨f1, f2, f3, f4⟩ :=
            loopCount_seq false endId stT (some (st.nextId, some "false")) elseB stF pF hB2 hglF
              (by intro s0 hh; simp at hh)
          rcases hjs : joinStep stF pT pF with ⟨stJ, pJ⟩
          rw [hjs] at h
          injection h with h1 h2
          subst h1
          subst h2
          have hje := joinStep_loopEdges stF pT pF t2 f2
          rw [hjs] at hje
          refine ⟨?_, ?_, ?_, ?_⟩
          · rw [hje, f1, t1, loopEdges_connect _ _ _ hpl]
            simp [countLoopsStmt]
            omega
          · intro s0 hh
            have := joinStep_pend_ne stF pT pF
            rcases pT with _ | ⟨tq, tlq⟩ <;> rcases pF with _ | ⟨fq, flq⟩ <;>
              simp [joinStep] at hjs <;> rw [← hjs.2] at hh <;> simp at hh
          · intro n hn
            have h1 := joinStep_mem_nodes stF pT pF n
              (f3 n (t3 n (by rw [connect_nodes]; simp [List.mem_append]; tauto)))
            rw [hjs] at h1
            exact h1
          · intro e he
            have hee : e ∈ (joinStep stF pT pF).1.edges := by rw [hjs]; exact he
            rcases joinStep_mem_edge_cases stF pT pF e hee with hin | hnew
            · rcases f4 e hin with hin2 | hnl | ⟨n, hn, hni, hnk⟩
              · rcases t4 e hin2 with hin3 | hnl2 | ⟨n, hn, hni, hnk⟩
                · rcases mem_connect_cases _ _ _ _ hin3 with hin4 | ⟨src, lab, hsome, rfl⟩
                  · exact Or.inl hin4
                  · have : ¬ lab = some "loop" := by
                      intro hh
                      subst hh
                      exact hpl src hsome
                    exact Or.inr (Or.inl this)
                · exact Or.inr (Or.inl hnl2)
                · refine Or.inr (Or.inr ⟨n, ?_, hni, hnk⟩)
                  have h2 := joinStep_mem_nodes stF pT pF n (f3 n hn)
                  rw [hjs] at h2
                  exact h2
              · exact Or.inr (Or.inl hnl)
              · refine Or.inr (Or.inr ⟨n, ?_, hni, hnk⟩)
                have h2 := joinStep_mem_nodes stF pT pF n hn
                rw [hjs] at h2
                exact h2
            · rcases hnew with ⟨src, lab, hsome, rfl⟩ | ⟨src, lab, hsome, rfl⟩
              · have : ¬ lab = some "loop" := by
                  intro hh
                  subst hh
                  exact t2 src hsome
                exact Or.inr (Or.inl this)
              · have : ¬ lab = some "loop" := by
                  intro hh
                  subst hh
                  exact f2 src hsome
                exact Or.inr (Or.inl this)
  | sfor cond body =>
      cases d with
      | true =>
          simp only [buildStmt, if_true] at h
          injection h with h1 h2
          subst h1
          subst h2
          exact ⟨by simp [countLoopsStmt], hpl, fun n hn => hn, fun e he => Or.inl he⟩
      | false =>
          simp only [buildStmt, Bool.false_eq_true, if_false] at h
          rcases hN : newNode st .decision cond with ⟨st1, cId⟩
          rw [hN] at h
          dsimp only at h
          rcases hB : buildSeq false endId (connect st1 p cId)
              (some (cId, some "true")) body with ⟨stB, pB⟩
          rw [hB] at h
          dsimp only at h
          injection h with h1 h2
          subst h1
          subst h2
          injection hN with hA hB'
          subst hA
          subst hB'
          simp only [goodLoopsStmt, Bool.false_or, Bool.and_eq_true] at hgl
          obtain ⟨hgs, hgb⟩ := hgl
          obtain ⟨c1, c2, c3, c4⟩ :=
            loopCount_seq false endId
              (connect ⟨st.nextId + 1, st.nodes ++ [⟨st.nextId, cond, NodeKind.decision⟩],
                st.edges⟩ p st.nextId)
              (some (st.nextId, some "true")) body stB pB hB hgb
              (by intro s0 hh; simp at hh)
          obtain ⟨t, ht⟩ := tail_simple body endId _ _ _ _ hB hgs
          subst ht
          have hdn : (⟨st.nextId, cond, NodeKind.decision⟩ : GNode) ∈ stB.nodes :=
            c3 _ (by rw [connect_nodes]; simp [List.mem_append])
          refine ⟨?_, ?_, ?_, ?_⟩
          · simp only [backStep]
            rw [loopEdges_addEdge]
            simp only [if_pos rfl]
            rw [c1, loopEdges_connect _ _ _ hpl]
            simp [countLoopsStmt]
            omega
          · intro s0 hh
            simp at hh
          · intro n hn
            rw [backStep_nodes]
            exact c3 n (by rw [connect_nodes]; simp [List.mem_append]; tauto)
          · intro e he
            simp only [backStep] at he
            rcases mem_addEdge_cases _ _ _ _ _ he with hin | rfl
            · rcases c4 e hin with hin2 | hnl | ⟨n, hn, hni, hnk⟩
              · rcases mem_connect_cases _ _ _ _ hin2 with hin3 | ⟨src, lab, hsome, rfl⟩
                · exact Or.inl hin3
                · have : ¬ lab = some "loop" := by
                    intro hh
                    subst hh
                    exact hpl src hsome
                  exact Or.inr (Or.inl this)
              · exact Or.inr (Or.inl hnl)
              · exact Or.inr (Or.inr ⟨n, by rw [backStep_nodes]; exact hn, hni, hnk⟩)
            · refine Or.inr (Or.inr ⟨⟨st.nextId, cond, NodeKind.decision⟩, ?_, rfl, rfl⟩)
              rw [backStep_nodes]
              exact hdn
  | swhile cond body =>
      cases d with
      | true =>
          simp only [buildStmt, if_true] at h
          injection h with h1 h2
          subst h1
          subst h2
          exact ⟨by simp [countLoopsStmt], hpl, fun n hn => hn, fun e he => Or.inl he⟩
      | false =>
          simp only [buildStmt, Bool.false_eq_true, if_false] at h
          rcases hN : newNode st .decision cond with ⟨st1, cId⟩
          rw [hN] at h
          dsimp only at h
          rcases hB : buildSeq false endId (connect st1 p cId)
              (some (cId, some "true")) body with ⟨stB, pB⟩
          rw [hB] at h
          dsimp only at h
          injection h with h1 h2
          subst h1
          subst h2
          injection hN with hA hB'
          subst hA
          subst hB'
          simp only [goodLoopsStmt, Bool.false_or, Bool.and_eq_true] at hgl
          obtain ⟨hgs, hgb⟩ := hgl
          obtain ⟨c1, c2, c3, c4⟩ :=
            loopCount_seq false endId
              (connect ⟨st.nextId + 1, st.nodes ++ [⟨st.nextId, cond, NodeKind.decision⟩],
                st.edges⟩ p st.nextId)
              (some (st.nextId, some "true")) body stB pB hB hgb
              (by intro s0 hh; simp at hh)
          obtain ⟨t, ht⟩ := tail_simple body endId _ _ _ _ hB hgs
          subst ht
          have hdn : (⟨st.nextId, cond, NodeKind.decision⟩ : GNode) ∈ stB.nodes :=
            c3 _ (by rw [connect_nodes]; simp [List.mem_append])
          refine ⟨?_, ?_, ?_, ?_⟩
          · simp only [backStep]
            rw [loopEdges_addEdge]
            simp only [if_pos rfl]
            rw [c1, loopEdges_connect _ _ _ hpl]
            simp [countLoopsStmt]
            omega
          · intro s0 hh
            simp at hh
          · intro n hn
            rw [backStep_nodes]
            exact c3 n (by rw [connect_nodes]; simp [List.mem_append]; tauto)
          · intro e he
            simp only [backStep] at he
            rcases mem_addEdge_cases _ _ _ _ _ he with hin | rfl
            · rcases c4 e hin with hin2 | hnl | ⟨n, hn, hni, hnk⟩
              · rcases mem_connect_cases _ _ _ _ hin2 with hin3 | ⟨src, lab, hsome, rfl⟩
                · exact Or.inl hin3
                · have : ¬ lab = some "loop" := by
                    intro hh
                    subst hh
                    exact hpl src hsome
                  exact Or.inr (Or.inl this)
              · exact Or.inr (Or.inl hnl)
              · exact Or.inr (Or.inr ⟨n, by rw [backStep_nodes]; exact hn, hni, hnk⟩)
            · refine Or.inr (Or.inr ⟨⟨st.nextId, cond, NodeKind.decision⟩, ?_, rfl, rfl⟩)
              rw [backStep_nodes]
              exact hdn
  | scall target =>
      cases d with
      | true =>
          simp only [buildStmt, if_true] at h
          injection h with h1 h2
          subst h1
          subst h2
          exact ⟨by simp [countLoopsStmt], hpl, fun n hn => hn, fun e he => Or.inl he⟩
      | false =>
          simp only [buildStmt, Bool.false_eq_true, if_false] at h
          injection h with h1 h2
          subst h1
          subst h2
          refine ⟨?_, ?_, ?_, ?_⟩
          · rw [loopEdges_connect _ _ _ hpl]
            simp [countLoopsStmt, newNode]
          · intro s0 hh
            simp at hh
          · intro n hn
            rw [connect_nodes]
            simp [newNode, List.mem_append]
            tauto
          · intro e he
            rcases mem_connect_cases _ _ _ _ he with hin | ⟨src, lab, hsome, rfl⟩
            · simp only [newNode] at hin
              exact Or.inl hin
            · have : ¬ lab = some "loop" := by
                intro hh
                subst hh
                exact hpl src hsome
              exact Or.inr (Or.inl this)
  | sret =>
      cases d with
      | true =>
          simp only [buildStmt, if_true] at h
          injection h with h1 h2
          subst h1
          subst h2
          exact ⟨by simp [countLoopsStmt], hpl, fun n hn => hn, fun e he => Or.inl he⟩
      | false =>
          simp only [buildStmt, Bool.false_eq_true, if_false] at h
          injection h with h1 h2
          subst h1
          subst h2
          refine ⟨?_, ?_, ?_, ?_⟩
          · rw [loopEdges_addEdge, loopEdges_connect _ _ _ hpl]
            simp [countLoopsStmt, newNode]
          · intro s0 hh
            simp at hh
          · intro n hn
            rw [addEdge_nodes, connect_nodes]
            simp [newNode, List.mem_append]
            tauto
          · intro e he
            rcases mem_addEdge_cases _ _ _ _ _ he with hin | rfl
            · rcases mem_connect_cases _ _ _ _ hin with hin2 | ⟨src, lab, hsome, rfl⟩
              · simp only [newNode] at hin2
                exact Or.inl hin2
              · have : ¬ lab = some "loop" := by
                  intro hh
                  subst hh
                  exact hpl src hsome
                exact Or.inr (Or.inl this)
            · exact Or.inr (Or.inl (by simp))
  | plain label =>
      cases d with
      | true =>
          simp only [buildStmt, if_true] at h
          injection h with h1 h2
          subst h1
          subst h2
          exact ⟨by simp [countLoopsStmt], hpl, fun n hn => hn, fun e he => Or.inl he⟩
      | false =>
          simp only [buildStmt, Bool.false_eq_true, if_false] at h
          injection h with h1 h2
          subst h1
          subst h2
          refine ⟨?_, ?_, ?_, ?_⟩
          · rw [loopEdges_connect _ _ _ hpl]
            simp [countLoopsStmt, newNode]
          · intro s0 hh
            simp at hh
          · intro n hn
            rw [connect_nodes]
            simp [newNode, List.mem_append]
            tauto
          · intro e he
            rcases mem_connect_cases _ _ _ _ he with hin | ⟨src, lab, hsome, rfl⟩
            · simp only [newNode] at hin
              exact Or.inl hin
            · have : ¬ lab = some "loop" := by
                intro hh
                subst hh
                exact hpl src hsome
              exact Or.inr (Or.inl this)

theorem loopCount_seq (d : Bool) (endId : Nat) (st : BState) (p : Option Pend) (l : SList)
    (st' : BState) (p' : Option Pend) (h : buildSeq d endId st p l = (st', p'))
    (hgl : goodLoopsSeq d l = true)
    (hpl : ∀ s0, p ≠ some (s0, some "loop")) :
    loopEdges st'.edges = loopEdges st.edges + countLoopsSeq d l ∧
    (∀ s0, p' ≠ some (s0, some "loop")) ∧
    (∀ n ∈ st.nodes, n ∈ st'.nodes) ∧
    (∀ e ∈ st'.edges, e ∈ st.edges ∨ ¬ e.label = some "loop" ∨
      ∃ n ∈ st'.nodes, n.id = e.toId ∧ n.kind = NodeKind.decision) := by
  cases l with
  | nil =>
      simp only [buildSeq] at h
      injection h with h1 h2
      subst h1
      subst h2
      exact ⟨by simp [countLoopsSeq], hpl, fun n hn => hn, fun e he => Or.inl he⟩
  | cons s rest =>
      simp only [buildSeq] at h
      rcases hmid : buildStmt d endId st p s with ⟨mid, pmid⟩
      rw [hmid] at h
      dsimp only at h
      simp only [goodLoopsSeq, Bool.and_eq_true] at hgl
      obtain ⟨hgs, hgr⟩ := hgl
      obtain ⟨m1, m2, m3, m4⟩ := loopCount_stmt d endId st p s mid pmid hmid hgs hpl
      obtain ⟨r1, r2, r3, r4⟩ := loopCount_seq d endId mid pmid rest st' p' h hgr m2
      refine ⟨?_, r2, fun n hn => r3 n (m3 n hn), ?_⟩
      · rw [r1, m1]
        simp [countLoopsSeq]
        omega
      · intro e he
        rcases r4 e he with hin | hnl | hdec
        · rcases m4 e hin with hin2 | hnl2 | ⟨n, hn, hni, hnk⟩
          · exact Or.inl hin2
          · exact Or.inr (Or.inl hnl2)
          · exact Or.inr (Or.inr ⟨n, r3 n hn, hni, hnk⟩)
        · exact Or.inr (Or.inl hnl)
        · exact Or.inr (Or.inr hdec)

end

end Analyzer

namespace Analyzer

theorem outSpec_id (d : Bool) (st : BState) (p : Option Pend)
    (hpv : ∀ s0 l0, p = some (s0, l0) → s0 < st.nextId) :
    OutSpec d st p st p := by
  refine ⟨le_refl _, hpv, Or.inl rfl, fun _ => rfl, [], [], by simp, by simp,
    ?_, ?_, ?_, ?_⟩
  · intro n hn
    simp at hn
  · intro e he
    simp at he
  · intro s0 l0 hp0
    exact Or.inl ⟨rfl, rfl⟩
  · intro n hn
    simp at hn

theorem outSpec_comp (d : Bool) (st mid st2 : BState) (p pmid p2 : Option Pend)
    (H1 : OutSpec d st p mid pmid) (H2 : OutSpec d mid pmid st2 p2)
    (hpv : ∀ s0 l0, p = some (s0, l0) → s0 < st.nextId) :
    OutSpec d st p st2 p2 := by
  obtain ⟨a1, a2, a3, a4, Dn1, De1, aN, aE, an, ae, acons, adec⟩ := H1
  obtain ⟨b1, b2, b3, b4, Dn2, De2, bN, bE, bn, be, bcons, bdec⟩ := H2
  refine ⟨le_trans a1 b1, b2, ?_, ?_, Dn1 ++ Dn2, De1 ++ De2, ?_, ?_, ?_, ?_, ?_, ?_⟩
  · rcases b3 with hb | hb
    · subst hb
      rcases a3 with ha | ha
      · exact Or.inl ha
      · exact Or.inr ha
    · right
      intro s0 l0 hh
      exact le_trans a1 (hb s0 l0 hh)
  · intro hd
    rw [b4 hd, a4 hd]
  · rw [bN, aN, List.append_assoc]
  · rw [bE, aE, List.append_assoc]
  · intro n hn
    rcases List.mem_append.mp hn with hm | hm
    · obtain ⟨u, v⟩ := an n hm
      exact ⟨u, lt_of_lt_of_le v b1⟩
    · obtain ⟨u, v⟩ := bn n hm
      exact ⟨le_trans a1 u, v⟩
  · intro e he
    rcases List.mem_append.mp he with hm | hm
    · obtain ⟨u, v⟩ := ae e hm
      exact ⟨u, lt_of_lt_of_le v b1⟩
    · obtain ⟨u, v⟩ := be e hm
      refine ⟨?_, v⟩
      rcases u with ⟨l0, hl⟩ | hge
      · rcases a3 with ha | ha
        · rw [ha] at hl
          exact Or.inl ⟨l0, hl⟩
        · exact Or.inr (ha _ _ hl)
      · exact Or.inr (le_trans a1 hge)
  · intro s0 l0 hp0
    have hs0 : s0 < st.nextId := hpv s0 l0 hp0
    rcases acons s0 l0 hp0 with ⟨hpm, hz1⟩ | ⟨ho1, hl1, hne1⟩
    · rcases bcons s0 l0 (by rw [hpm, hp0]) with ⟨hpp, hz2⟩ | ⟨ho2, hl2, hne2⟩
      · left
        refine ⟨by rw [hpp, hpm], ?_⟩
        rw [outDeg_append, hz1, hz2]
      · right
        have hl1z : outDegL De1 s0 l0 = 0 := outDegL_eq_zero_of_outDeg De1 s0 l0 hz1
        exact ⟨by rw [outDeg_append, hz1, ho2], by rw [outDegL_append, hl1z, hl2], hne2⟩
    · have hz2 : outDeg De2 s0 = 0 := by
        apply outDeg_eq_zero
        intro e he2
        obtain ⟨u, _⟩ := be e he2
        rcases u with ⟨l2, hl2⟩ | hge
        · intro heq
          exact hne1 l2 (by rw [heq] at hl2; exact hl2)
        · intro heq
          omega
      have hl2z : outDegL De2 s0 l0 = 0 := outDegL_eq_zero_of_outDeg De2 s0 l0 hz2
      right
      refine ⟨by rw [outDeg_append, ho1, hz2], by rw [outDegL_append, hl1, hl2z], ?_⟩
      intro lab hh
      rcases b3 with hb | hb
      · rw [hb] at hh
        exact hne1 lab hh
      · have := hb s0 lab hh
        omega
  · intro n hn hk
    rcases List.mem_append.mp hn with hmem | hmem
    · obtain ⟨hnlo, hnhi⟩ := an n hmem
      rcases adec n hmem hk with ⟨hpm, ho1, ht1⟩ | ⟨hne1, ho1, ht1, hf1⟩
      · rcases bcons n.id (some "false") hpm with ⟨hpp, hz2⟩ | ⟨ho2, hl2, hne2⟩
        · left
          have hl2z := outDegL_eq_zero_of_outDeg De2 n.id (some "true") hz2
          exact ⟨by rw [hpp, hpm], by rw [outDeg_append, ho1, hz2],
            by rw [outDegL_append, ht1, hl2z]⟩
        · right
          have ht2 : outDegL De2 n.id (some "true") = 0 := by
            have hp2 := outDegL_pair_le De2 n.id (some "true") (some "false") (by simp)
            omega
          have hf1z : outDegL De1 n.id (some "false") = 0 := by
            have hp1 := outDegL_pair_le De1 n.id (some "true") (some "false") (by simp)
            omega
          exact ⟨hne2, by rw [outDeg_append, ho1, ho2],
            by rw [outDegL_append, ht1, ht2], by rw [outDegL_append, hf1z, hl2]⟩
      · have hz2 : outDeg De2 n.id = 0 := by
          apply outDeg_eq_zero
          intro e he2
          obtain ⟨u, _⟩ := be e he2
          rcases u with ⟨l2, hl2⟩ | hge
          · intro heq
            exact hne1 l2 (by rw [heq] at hl2; exact hl2)
          · intro heq
            omega
        have ht2 := outDegL_eq_zero_of_outDeg De2 n.id (some "true") hz2
        have hf2 := outDegL_eq_zero_of_outDeg De2 n.id (some "false") hz2
        right
        refine ⟨?_, by rw [outDeg_append, ho1, hz2],
          by rw [outDegL_append, ht1, ht2], by rw [outDegL_append, hf1, hf2]⟩
        intro lab hh
        rcases b3 with hb | hb
        · rw [hb] at hh
          exact hne1 lab hh
        · have := hb n.id lab hh
          omega
    · obtain ⟨hnlo, hnhi⟩ := bn n hmem
      have hz1 : outDeg De1 n.id = 0 := by
        apply outDeg_eq_zero
        intro e he1
        obtain ⟨_, hlt⟩ := ae e he1
        intro heq
        omega
      have ht1z := outDegL_eq_zero_of_outDeg De1 n.id (some "true") hz1
      have hf1z := outDegL_eq_zero_of_outDeg De1 n.id (some "false") hz1
      rcases bdec n hmem hk with ⟨hpp, ho2, ht2⟩ | ⟨hne2, ho2, ht2, hf2⟩
      · left
        exact ⟨hpp, by rw [outDeg_append, hz1, ho2], by rw [outDegL_append, ht1z, ht2]⟩
      · right
        exact ⟨hne2, by rw [outDeg_append, hz1, ho2],
          by rw [outDegL_append, ht1z, ht2], by rw [outDegL_append, hf1z, hf2]⟩

end Analyzer

namespace Analyzer

theorem outDeg_pend_zero (p : Option Pend) (t i : Nat) (h : ∀ l0, p ≠ some (i, l0)) :
    outDeg (pendEdges p t) i = 0 := by
  rcases p with _ | ⟨src, lab⟩
  · rfl
  · have hs : src ≠ i := fun hh => h lab (by rw [hh])
    simp only [pendEdges]
    exact outDeg_single_ne _ _ _ _ hs

theorem outDegL_pend_zero (p : Option Pend) (t i : Nat) (l : Option String)
    (h : ∀ l0, p ≠ some (i, l0)) : outDegL (pendEdges p t) i l = 0 :=
  outDegL_eq_zero_of_outDeg _ _ _ (outDeg_pend_zero p t i h)

theorem outDeg_pend_eq (s0 t : Nat) (l0 : Option String) :
    outDeg (pendEdges (some (s0, l0)) t) s0 = 1 :=
  outDeg_single_eq _ _ _

theorem outDegL_pend_eq (s0 t : Nat) (l0 : Option String) :
    outDegL (pendEdges (some (s0, l0)) t) s0 l0 = 1 :=
  outDegL_single_eq _ _ _

theorem outDegL_pend_ne_label (s0 t : Nat) (l0 l : Option String) (h : l0 ≠ l) :
    outDegL (pendEdges (some (s0, l0)) t) s0 l = 0 :=
  outDegL_single_ne_label _ _ _ _ _ (fun hh => h hh.2)

theorem outDeg_back_zero (pB : Option Pend) (c i : Nat) (h : ∀ l0, pB ≠ some (i, l0)) :
    outDeg (backEdges pB c) i = 0 := by
  rcases pB with _ | ⟨t, _ | l⟩
  · rfl
  · have hs : t ≠ i := fun hh => h none (by rw [hh])
    simp only [backEdges]
    exact outDeg_single_ne _ _ _ _ hs
  · have hs : t ≠ i := fun hh => h (some l) (by rw [hh])
    simp only [backEdges]
    exact outDeg_single_ne _ _ _ _ hs

theorem outDegL_back_zero (pB : Option Pend) (c i : Nat) (l : Option String)
    (h : ∀ l0, pB ≠ some (i, l0)) : outDegL (backEdges pB c) i l = 0 :=
  outDegL_eq_zero_of_outDeg _ _ _ (outDeg_back_zero pB c i h)

theorem outSpec_ret_core (endId : Nat) (st : BState) (p : Option Pend)
    (hpv : ∀ s0 l0, p = some (s0, l0) → s0 < st.nextId) :
    OutSpec false st p
      (addEdge (connect (newNode st .process "return").1 p (newNode st .process "return").2)
        (newNode st .process "return").2 endId none) none := by
  have hnx : (addEdge (connect (newNode st .process "return").1 p
      (newNode st .process "return").2) (newNode st .process "return").2 endId none).nextId
      = st.nextId + 1 := by
    simp [addEdge, connect_nextId, newNode]
  refine ⟨by rw [hnx]; omega, ?_, ?_, ?_,
    [⟨st.nextId, "return", .process⟩], pendEdges p st.nextId ++ [⟨st.nextId, endId, none⟩],
    ?_, ?_, ?_, ?_, ?_, ?_⟩
  · intro s0 l0 hh
    simp at hh
  · right
    intro s0 l0 hh
    simp at hh
  · intro hd
    simp at hd
  · simp [addEdge, connect_nodes, newNode]
  · rw [← List.append_assoc]
    simp only [addEdge]
    rw [connect_edges_decomp]
    simp [newNode]
  · intro n hn
    simp only [List.mem_singleton] at hn
    subst hn
    exact ⟨le_refl _, by rw [hnx]; exact Nat.lt_succ_self _⟩
  · intro e he
    rw [hnx]
    rcases List.mem_append.mp he with hm | hm
    · rcases p with _ | ⟨src, lab⟩
      · simp [pendEdges] at hm
      · simp only [pendEdges, List.mem_singleton] at hm
        subst hm
        have hs := hpv src lab rfl
        dsimp only
        exact ⟨Or.inl ⟨lab, rfl⟩, by omega⟩
    · simp only [List.mem_singleton] at hm
      subst hm
      dsimp only
      exact ⟨Or.inr (le_refl _), Nat.lt_succ_self _⟩
  · intro s0 l0 hp0
    subst hp0
    right
    have hs0 := hpv s0 l0 rfl
    refine ⟨?_, ?_, ?_⟩
    · rw [outDeg_append, outDeg_pend_eq, outDeg_single_ne _ _ _ _ (by omega)]
    · rw [outDegL_append, outDegL_pend_eq,
        outDegL_single_ne_label _ _ _ _ _ (by rintro ⟨h1, h2⟩; omega)]
    · intro lab hh
      simp at hh
  · intro n hn hk
    simp only [List.mem_singleton] at hn
    subst hn
    simp at hk

theorem outSpec_class_core (d : Bool) (st : BState) (p : Option Pend)
    (stB : BState) (pB : Option Pend)
    (hB : OutSpec true st none stB pB)
    (hpv : ∀ s0 l0, p = some (s0, l0) → s0 < st.nextId) :
    OutSpec d st p stB p := by
  obtain ⟨b1, b2, b3, b4, Dn, De, bN, bE, bn, be, bcons, bdec⟩ := hB
  have hpB : pB = none := b4 rfl
  subst hpB
  refine ⟨b1, ?_, Or.inl rfl, fun _ => rfl, Dn, De, bN, bE, bn, ?_, ?_, ?_⟩
  · intro s0 l0 hh
    exact lt_of_lt_of_le (hpv s0 l0 hh) b1
  · intro e he
    obtain ⟨u, v⟩ := be e he
    rcases u with ⟨l0, hl⟩ | hge
    · simp at hl
    · exact ⟨Or.inr hge, v⟩
  · intro s0 l0 hp0
    left
    refine ⟨rfl, ?_⟩
    apply outDeg_eq_zero
    intro e he
    obtain ⟨u, _⟩ := be e he
    rcases u with ⟨l0', hl⟩ | hge
    · simp at hl
    · have := hpv s0 l0 hp0
      omega
  · intro n hn hk
    obtain ⟨hnlo, hnhi⟩ := bn n hn
    rcases bdec n hn hk with ⟨hpp, _, _⟩ | ⟨hne, ho, ht, hf⟩
    · simp at hpp
    · right
      refine ⟨?_, ho, ht, hf⟩
      intro lab hh
      have := hpv n.id lab hh
      omega

end Analyzer

namespace Analyzer

theorem outSpec_fn_core (d : Bool) (st : BState) (p : Option Pend)
    (stB : BState) (pB : Option Pend)
    (hB : OutSpec false
      ⟨st.nextId + 1 + 1,
        (st.nodes ++ [⟨st.nextId, "start", NodeKind.start⟩]) ++
          [⟨st.nextId + 1, "end", NodeKind.stop⟩], st.edges⟩
      (some (st.nextId, none)) stB pB)
    (hpv : ∀ s0 l0, p = some (s0, l0) → s0 < st.nextId) :
    OutSpec d st p (connect stB pB (st.nextId + 1)) p := by
  obtain ⟨b1, b2, b3, b4, Dn, De, bN, bE, bn, be, bcons, bdec⟩ := hB
  have b1' : st.nextId + 1 + 1 ≤ stB.nextId := b1
  have hnx : (connect stB pB (st.nextId + 1)).nextId = stB.nextId := connect_nextId _ _ _
  refine ⟨?_, ?_, Or.inl rfl, fun _ => rfl,
    ⟨st.nextId, "start", NodeKind.start⟩ :: ⟨st.nextId + 1, "end", NodeKind.stop⟩ :: Dn,
    De ++ pendEdges pB (st.nextId + 1), ?_, ?_, ?_, ?_, ?_, ?_⟩
  · rw [hnx]
    omega
  · intro s0 l0 hh
    rw [hnx]
    have := hpv s0 l0 hh
    omega
  · rw [connect_nodes, bN]
    simp
  · rw [connect_edges_decomp, bE]
    simp
  · intro n hn
    rw [hnx]
    simp only [List.mem_cons] at hn
    rcases hn with rfl | rfl | hn
    · exact ⟨le_refl _,
        lt_of_lt_of_le (show st.nextId < st.nextId + 1 + 1 by omega) b1'⟩
    · exact ⟨Nat.le_succ _,
        lt_of_lt_of_le (show st.nextId + 1 < st.nextId + 1 + 1 by omega) b1'⟩
    · obtain ⟨u, v⟩ := bn n hn
      have u' : st.nextId + 1 + 1 ≤ n.id := u
      exact ⟨by omega, v⟩
  · intro e he
    rw [hnx]
    rcases List.mem_append.mp he with hm | hm
    · obtain ⟨u, v⟩ := be e hm
      refine ⟨?_, v⟩
      rcases u with ⟨l0, hl⟩ | hge
      · simp only [Option.some.injEq, Prod.mk.injEq] at hl
        obtain ⟨h1, _⟩ := hl
        exact Or.inr (by omega)
      · have hge' : st.nextId + 1 + 1 ≤ e.fromId := hge
        exact Or.inr (by omega)
    · rcases pB with _ | ⟨src, lab⟩
      · simp [pendEdges] at hm
      · simp only [pendEdges, List.mem_singleton] at hm
        subst hm
        have hv : src < stB.nextId := b2 src lab rfl
        refine ⟨?_, hv⟩
        rcases b3 with hb | hb
        · simp only [Option.some.injEq, Prod.mk.injEq] at hb
          obtain ⟨h1, _⟩ := hb
          exact Or.inr (show st.nextId ≤ src by omega)
        · have hx : st.nextId + 1 + 1 ≤ src := hb src lab rfl
          exact Or.inr (show st.nextId ≤ src by omega)
  · intro s0 l0 hp0
    left
    refine ⟨rfl, ?_⟩
    have hs0 := hpv s0 l0 hp0
    apply outDeg_eq_zero
    intro e he
    rcases List.mem_append.mp he with hm | hm
    · obtain ⟨u, _⟩ := be e hm
      rcases u with ⟨l0', hl⟩ | hge
      · simp only [Option.some.injEq, Prod.mk.injEq] at hl
        obtain ⟨h1, _⟩ := hl
        omega
      · have hge' : st.nextId + 1 + 1 ≤ e.fromId := hge
        omega
    · rcases pB with _ | ⟨src, lab⟩
      · simp [pendEdges] at hm
      · simp only [pendEdges, List.mem_singleton] at hm
        subst hm
        show src ≠ s0
        rcases b3 with hb | hb
        · simp only [Option.some.injEq, Prod.mk.injEq] at hb
          obtain ⟨h1, _⟩ := hb
          omega
        · have hx : st.nextId + 1 + 1 ≤ src := hb src lab rfl
          omega
  · intro n hn hk
    simp only [List.mem_cons] at hn
    rcases hn with rfl | rfl | hn
    · simp at hk
    · simp at hk
    · obtain ⟨u, v⟩ := bn n hn
      have u' : st.nextId + 1 + 1 ≤ n.id := u
      rcases bdec n hn hk with ⟨hpp, ho, ht⟩ | ⟨hne, ho, ht, hf⟩
      · subst hpp
        right
        have hoP : outDeg (pendEdges (some (n.id, some "false")) (st.nextId + 1)) n.id = 1 :=
          outDeg_pend_eq _ _ _
        have htP : outDegL (pendEdges (some (n.id, some "false")) (st.nextId + 1)) n.id
            (some "true") = 0 :=
          outDegL_pend_ne_label _ _ _ _ (by simp)
        have hfP : outDegL (pendEdges (some (n.id, some "false")) (st.nextId + 1)) n.id
            (some "false") = 1 :=
          outDegL_pend_eq _ _ _
        have hfD : outDegL De n.id (some "false") = 0 := by
          have hp1 := outDegL_pair_le De n.id (some "true") (some "false") (by simp)
          omega
        refine ⟨?_, ?_, ?_, ?_⟩
        · intro lab hh
          have := hpv n.id lab hh
          omega
        · simp only [outDeg_append]
          omega
        · simp only [outDegL_append]
          omega
        · simp only [outDegL_append]
          omega
      · right
        have hoP : outDeg (pendEdges pB (st.nextId + 1)) n.id = 0 :=
          outDeg_pend_zero _ _ _ hne
        have htP := outDegL_eq_zero_of_outDeg _ _ (some "true") hoP
        have hfP := outDegL_eq_zero_of_outDeg _ _ (some "false") hoP
        refine ⟨?_, ?_, ?_, ?_⟩
        · intro lab hh
          have := hpv n.id lab hh
          omega
        · simp only [outDeg_append]
          omega
        · simp only [outDegL_append]
          omega
        · simp only [outDegL_append]
          omega

end Analyzer

namespace Analyzer

theorem outSpec_loop_core (st : BState) (p : Option Pend) (cond : String)
    (stB : BState) (pB : Option Pend)
    (hB : OutSpec false
      (connect ⟨st.nextId + 1, st.nodes ++ [⟨st.nextId, cond, NodeKind.decision⟩], st.edges⟩
        p st.nextId)
      (some (st.nextId, some "true")) stB pB)
    (hpv : ∀ s0 l0, p = some (s0, l0) → s0 < st.nextId) :
    OutSpec false st p (backStep stB pB st.nextId) (some (st.nextId, some "false")) := by
  obtain ⟨b1, b2, b3, b4, Dn, De, bN, bE, bn, be, bcons, bdec⟩ := hB
  have b1' : st.nextId + 1 ≤ stB.nextId := by
    rw [connect_nextId] at b1
    exact b1
  rw [connect_nodes] at bN
  rw [connect_edges_decomp] at bE
  have hnx : (backStep stB pB st.nextId).nextId = stB.nextId := backStep_nextId _ _ _
  refine ⟨?_, ?_, ?_, ?_,
    ⟨st.nextId, cond, NodeKind.decision⟩ :: Dn,
    pendEdges p st.nextId ++ (De ++ backEdges pB st.nextId),
    ?_, ?_, ?_, ?_, ?_, ?_⟩
  · rw [hnx]
    omega
  · intro s0 l0 hh
    simp only [Option.some.injEq, Prod.mk.injEq] at hh
    obtain ⟨h1, _⟩ := hh
    rw [hnx]
    omega
  · right
    intro s0 l0 hh
    simp only [Option.some.injEq, Prod.mk.injEq] at hh
    obtain ⟨h1, _⟩ := hh
    omega
  · intro hd
    simp at hd
  · rw [backStep_nodes, bN]
    simp
  · rw [backStep_edges_decomp, bE]
    simp
  · intro n hn
    rw [hnx]
    simp only [List.mem_cons] at hn
    rcases hn with rfl | hn
    · exact ⟨le_refl _, lt_of_lt_of_le (show st.nextId < st.nextId + 1 by omega) b1'⟩
    · obtain ⟨u, v⟩ := bn n hn
      have u' : st.nextId + 1 ≤ n.id := by
        rw [connect_nextId] at u
        exact u
      exact ⟨by omega, v⟩
  · intro e he
    rw [hnx]
    rcases List.mem_append.mp he with hm | hm
    · rcases p with _ | ⟨src, lab⟩
      · simp [pendEdges] at hm
      · simp only [pendEdges, List.mem_singleton] at hm
        subst hm
        have hs := hpv src lab rfl
        exact ⟨Or.inl ⟨lab, rfl⟩, show src < stB.nextId by omega⟩
    · rcases List.mem_append.mp hm with hm2 | hm2
      · obtain ⟨u, v⟩ := be e hm2
        refine ⟨?_, v⟩
        rcases u with ⟨l0, hl⟩ | hge
        · simp only [Option.some.injEq, Prod.mk.injEq] at hl
          obtain ⟨h1, _⟩ := hl
          exact Or.inr (by omega)
        · have hge' : st.nextId + 1 ≤ e.fromId := by
            rw [connect_nextId] at hge
            exact hge
          exact Or.inr (by omega)
      · rcases pB with _ | ⟨t, _ | l⟩
        · simp [backEdges] at hm2
        · simp only [backEdges, List.mem_singleton] at hm2
          subst hm2
          have hv : t < stB.nextId := b2 t none rfl
          refine ⟨?_, hv⟩
          rcases b3 with hb | hb
          · simp at hb
          · have hx : st.nextId + 1 ≤ t := by
              have := hb t none rfl
              rw [connect_nextId] at this
              exact this
            exact Or.inr (show st.nextId ≤ t by omega)
        · simp only [backEdges, List.mem_singleton] at hm2
          subst hm2
          have hv : t < stB.nextId := b2 t (some l) rfl
          refine ⟨?_, hv⟩
          rcases b3 with hb | hb
          · simp only [Option.some.injEq, Prod.mk.injEq] at hb
            obtain ⟨h1, _⟩ := hb
            exact Or.inr (show st.nextId ≤ t by omega)
          · have hx : st.nextId + 1 ≤ t := by
              have := hb t (some l) rfl
              rw [connect_nextId] at this
              exact this
            exact Or.inr (show st.nextId ≤ t by omega)
  · intro s0 l0 hp0
    subst hp0
    right
    have hs0 := hpv s0 l0 rfl
    have hDe : outDeg De s0 = 0 := by
      apply outDeg_eq_zero
      intro e heD
      obtain ⟨u, _⟩ := be e heD
      rcases u with ⟨l0', hl⟩ | hge
      · simp only [Option.some.injEq, Prod.mk.injEq] at hl
        obtain ⟨h1, _⟩ := hl
        omega
      · have hge' : st.nextId + 1 ≤ e.fromId := by
          rw [connect_nextId] at hge
          exact hge
        omega
    have hBk : outDeg (backEdges pB st.nextId) s0 = 0 := by
      apply outDeg_back_zero
      intro l0' hh
      subst hh
      rcases b3 with hb | hb
      · simp only [Option.some.injEq, Prod.mk.injEq] at hb
        obtain ⟨h1, _⟩ := hb
        omega
      · have hx : st.nextId + 1 ≤ s0 := by
          have := hb s0 l0' rfl
          rw [connect_nextId] at this
          exact this
        omega
    refine ⟨?_, ?_, ?_⟩
    · rw [outDeg_append, outDeg_append, outDeg_pend_eq, hDe, hBk]
    · have hDeL := outDegL_eq_zero_of_outDeg _ _ l0 hDe
      have hBkL := outDegL_eq_zero_of_outDeg _ _ l0 hBk
      rw [outDegL_append, outDegL_append, outDegL_pend_eq, hDeL, hBkL]
    · intro lab hh
      simp only [Option.some.injEq, Prod.mk.injEq] at hh
      obtain ⟨h1, _⟩ := hh
      omega
  · intro n hn hk
    simp only [List.mem_cons] at hn
    rcases hn with hn | hn
    · have hid : n.id = st.nextId := by rw [hn]
      left
      rw [hid]
      have hP : outDeg (pendEdges p st.nextId) st.nextId = 0 := by
        apply outDeg_pend_zero
        intro l0 hh
        have := hpv st.nextId l0 hh
        omega
      have hPT := outDegL_eq_zero_of_outDeg _ _ (some "true") hP
      rcases bcons st.nextId (some "true") rfl with ⟨hpp, hz⟩ | ⟨ho, ht, hne⟩
      · subst hpp
        have hzT := outDegL_eq_zero_of_outDeg _ _ (some "true") hz
        have hBk : outDeg (backEdges (some (st.nextId, some "true")) st.nextId)
            st.nextId = 1 := by
          show outDeg [⟨st.nextId, st.nextId, some "true"⟩] st.nextId = 1
          exact outDeg_single_eq _ _ _
        have hBkT : outDegL (backEdges (some (st.nextId, some "true")) st.nextId) st.nextId
            (some "true") = 1 := by
          show outDegL [⟨st.nextId, st.nextId, some "true"⟩] st.nextId (some "true") = 1
          exact outDegL_single_eq _ _ _
        refine ⟨rfl, ?_, ?_⟩
        · simp only [outDeg_append]
          omega
        · simp only [outDegL_append]
          omega
      · have hBk : outDeg (backEdges pB st.nextId) st.nextId = 0 :=
          outDeg_back_zero _ _ _ hne
        have hBkT := outDegL_eq_zero_of_outDeg _ _ (some "true") hBk
        refine ⟨rfl, ?_, ?_⟩
        · simp only [outDeg_append]
          omega
        · simp only [outDegL_append]
          omega
    · obtain ⟨u, v⟩ := bn n hn
      have u' : st.nextId + 1 ≤ n.id := by
        rw [connect_nextId] at u
        exact u
      have hP : outDeg (pendEdges p st.nextId) n.id = 0 := by
        apply outDeg_pend_zero
        intro l0 hh
        have := hpv n.id l0 hh
        omega
      have hPT := outDegL_eq_zero_of_outDeg _ _ (some "true") hP
      have hPF := outDegL_eq_zero_of_outDeg _ _ (some "false") hP
      rcases bdec n hn hk with ⟨hpp, ho, ht⟩ | ⟨hne, ho, ht, hf⟩
      · subst hpp
        right
        have hBk : outDeg (backEdges (some (n.id, some "false")) st.nextId) n.id = 1 := by
          show outDeg [⟨n.id, st.nextId, some "false"⟩] n.id = 1
          exact outDeg_single_eq _ _ _
        have hBkT : outDegL (backEdges (some (n.id, some "false")) st.nextId) n.id
            (some "true") = 0 := by
          show outDegL [⟨n.id, st.nextId, some "false"⟩] n.id (some "true") = 0
          exact outDegL_single_ne_label _ _ _ _ _ (by simp)
        have hBkF : outDegL (backEdges (some (n.id, some "false")) st.nextId) n.id
            (some "false") = 1 := by
          show outDegL [⟨n.id, st.nextId, some "false"⟩] n.id (some "false") = 1
          exact outDegL_single_eq _ _ _
        have hfD : outDegL De n.id (some "false") = 0 := by
          have hp1 := outDegL_pair_le De n.id (some "true") (some "false") (by simp)
          omega
        refine ⟨?_, ?_, ?_, ?_⟩
        · intro lab hh
          simp only [Option.some.injEq, Prod.mk.injEq] at hh
          obtain ⟨h1, _⟩ := hh
          omega
        · simp only [outDeg_append]
          omega
        · simp only [outDegL_append]
          omega
        · simp only [outDegL_append]
          omega
      · right
        have hBk : outDeg (backEdges pB st.nextId) n.id = 0 :=
          outDeg_back_zero _ _ _ hne
        have hBkT := outDegL_eq_zero_of_outDeg _ _ (some "true") hBk
        have hBkF := outDegL_eq_zero_of_outDeg _ _ (some "false") hBk
        refine ⟨?_, ?_, ?_, ?_⟩
        · intro lab hh
          simp only [Option.some.injEq, Prod.mk.injEq] at hh
          obtain ⟨h1, _⟩ := hh
          omega
        · simp only [outDeg_append]
          omega
        · simp only [outDegL_append]
          omega
        · simp only [outDegL_append]
          omega

end Analyzer

namespace Analyzer

theorem outSpec_sif_core (st : BState) (p : Option Pend) (cond : String)
    (stT stF stJ : BState) (pT pF pJ : Option Pend)
    (hT : OutSpec false
      (connect ⟨st.nextId + 1, st.nodes ++ [⟨st.nextId, cond, NodeKind.decision⟩], st.edges⟩
        p st.nextId)
      (some (st.nextId, some "true")) stT pT)
    (hF : OutSpec false stT (some (st.nextId, some "false")) stF pF)
    (hjs : joinStep stF pT pF = (stJ, pJ))
    (hpv : ∀ s0 l0, p = some (s0, l0) → s0 < st.nextId) :
    OutSpec false st p stJ pJ := by
  obtain ⟨t1, t2, t3, t4, DnT, DeT, tN, tE, tn, te, tcons, tdec⟩ := hT
  obtain ⟨f1, f2, f3, f4, DnF, DeF, fN, fE, fn, fe, fcons, fdec⟩ := hF
  have t1' : st.nextId + 1 ≤ stT.nextId := by
    rw [connect_nextId] at t1
    exact t1
  rw [connect_nodes] at tN
  rw [connect_edges_decomp] at tE
  have t3' : ∀ s0 l0, pT = some (s0, l0) → st.nextId ≤ s0 := by
    intro s0 l0 hh
    rcases t3 with hb | hb
    · rw [hb] at hh
      simp only [Option.some.injEq, Prod.mk.injEq] at hh
      obtain ⟨h1, _⟩ := hh
      omega
    · have hx := hb s0 l0 hh
      rw [connect_nextId] at hx
      have hx' : st.nextId + 1 ≤ s0 := hx
      omega
  have f3' : ∀ s0 l0, pF = some (s0, l0) → st.nextId ≤ s0 := by
    intro s0 l0 hh
    rcases f3 with hb | hb
    · rw [hb] at hh
      simp only [Option.some.injEq, Prod.mk.injEq] at hh
      obtain ⟨h1, _⟩ := hh
      omega
    · have hx := hb s0 l0 hh
      omega
  rcases joinStep_decomp stF pT pF with ⟨hpT, hpF, hj⟩ | ⟨hne0, hjN, hjE, hjX, hjP⟩
  · -- both branches return: no join node, flow stays terminated
    rw [hjs] at hj
    injection hj with e1 e2
    subst e1
    subst e2
    subst hpT
    subst hpF
    rcases tcons st.nextId (some "true") rfl with ⟨hpp, _⟩ | ⟨toD, ttD, _⟩
    · exact absurd hpp (by simp)
    rcases fcons st.nextId (some "false") rfl with ⟨hpp, _⟩ | ⟨foD, ffD, _⟩
    · exact absurd hpp (by simp)
    refine ⟨by omega, ?_, ?_, ?_,
      ⟨st.nextId, cond, NodeKind.decision⟩ :: (DnT ++ DnF),
      pendEdges p st.nextId ++ (DeT ++ DeF), ?_, ?_, ?_, ?_, ?_, ?_⟩
    · intro s0 l0 hh
      exact absurd hh (by simp)
    · right
      intro s0 l0 hh
      exact absurd hh (by simp)
    · intro hd
      simp at hd
    · rw [fN, tN]
      simp
    · rw [fE, tE]
      simp
    · intro n hn
      simp only [List.mem_cons, List.mem_append] at hn
      rcases hn with hn | hn | hn
      · have hid : n.id = st.nextId := by rw [hn]
        rw [hid]
        omega
      · obtain ⟨u, v⟩ := tn n hn
        have u' : st.nextId + 1 ≤ n.id := by
          rw [connect_nextId] at u
          exact u
        omega
      · obtain ⟨u, v⟩ := fn n hn
        omega
    · intro e he
      simp only [List.mem_append] at he
      rcases he with he | he | he
      · rcases p with _ | ⟨src, lab⟩
        · simp [pendEdges] at he
        · simp only [pendEdges, List.mem_singleton] at he
          subst he
          have hs := hpv src lab rfl
          exact ⟨Or.inl ⟨lab, rfl⟩, show src < stJ.nextId by omega⟩
      · obtain ⟨u, v⟩ := te e he
        refine ⟨?_, by omega⟩
        rcases u with ⟨l0, hl⟩ | hge
        · simp only [Option.some.injEq, Prod.mk.injEq] at hl
          obtain ⟨h1, _⟩ := hl
          exact Or.inr (by omega)
        · have hge' : st.nextId + 1 ≤ e.fromId := by
            rw [connect_nextId] at hge
            exact hge
          exact Or.inr (by omega)
      · obtain ⟨u, v⟩ := fe e he
        refine ⟨?_, v⟩
        rcases u with ⟨l0, hl⟩ | hge
        · simp only [Option.some.injEq, Prod.mk.injEq] at hl
          obtain ⟨h1, _⟩ := hl
          exact Or.inr (by omega)
        · exact Or.inr (by omega)
    · intro s0 l0 hp0
      subst hp0
      right
      have hs0 := hpv s0 l0 rfl
      have hDeT : outDeg DeT s0 = 0 := by
        apply outDeg_eq_zero
        intro e heD
        obtain ⟨u, _⟩ := te e heD
        rcases u with ⟨l0', hl⟩ | hge
        · simp only [Option.some.injEq, Prod.mk.injEq] at hl
          obtain ⟨h1, _⟩ := hl
          omega
        · have hge' : st.nextId + 1 ≤ e.fromId := by
            rw [connect_nextId] at hge
            exact hge
          omega
      have hDeF : outDeg DeF s0 = 0 := by
        apply outDeg_eq_zero
        intro e heD
        obtain ⟨u, _⟩ := fe e heD
        rcases u with ⟨l0', hl⟩ | hge
        · simp only [Option.some.injEq, Prod.mk.injEq] at hl
          obtain ⟨h1, _⟩ := hl
          omega
        · omega
      refine ⟨?_, ?_, ?_⟩
      · rw [outDeg_append, outDeg_append, outDeg_pend_eq, hDeT, hDeF]
      · have hTL := outDegL_eq_zero_of_outDeg _ _ l0 hDeT
        have hFL := outDegL_eq_zero_of_outDeg _ _ l0 hDeF
        rw [outDegL_append, outDegL_append, outDegL_pend_eq, hTL, hFL]
      · intro lab hh
        exact absurd hh (by simp)
    · intro n hn hk
      simp only [List.mem_cons, List.mem_append] at hn
      rcases hn with hn | hn | hn
      · -- the If decision node: both sides consumed their labelled pending
        have hid : n.id = st.nextId := by rw [hn]
        right
        rw [hid]
        have hP : outDeg (pendEdges p st.nextId) st.nextId = 0 := by
          apply outDeg_pend_zero
          intro l0 hh
          have := hpv st.nextId l0 hh
          omega
        have hPT := outDegL_eq_zero_of_outDeg _ _ (some "true") hP
        have hPF := outDegL_eq_zero_of_outDeg _ _ (some "false") hP
        have hTf : outDegL DeT st.nextId (some "false") = 0 := by
          have hp1 := outDegL_pair_le DeT st.nextId (some "true") (some "false") (by simp)
          omega
        have hFt : outDegL DeF st.nextId (some "true") = 0 := by
          have hp1 := outDegL_pair_le DeF st.nextId (some "true") (some "false") (by simp)
          omega
        refine ⟨?_, ?_, ?_, ?_⟩
        · intro lab hh
          exact absurd hh (by simp)
        · simp only [outDeg_append]
          omega
        · simp only [outDegL_append]
          omega
        · simp only [outDegL_append]
          omega
      · -- a decision created in the then-branch
        obtain ⟨u, v⟩ := tn n hn
        have u' : st.nextId + 1 ≤ n.id := by
          rw [connect_nextId] at u
          exact u
        rcases tdec n hn hk with ⟨hpp, _, _⟩ | ⟨tneN, toN, ttN, tfN⟩
        · exact absurd hpp (by simp)
        right
        have hP : outDeg (pendEdges p st.nextId) n.id = 0 := by
          apply outDeg_pend_zero
          intro l0 hh
          have := hpv n.id l0 hh
          omega
        have hPT := outDegL_eq_zero_of_outDeg _ _ (some "true") hP
        have hPF := outDegL_eq_zero_of_outDeg _ _ (some "false") hP
        have hDeF0 : outDeg DeF n.id = 0 := by
          apply outDeg_eq_zero
          intro e heF
          obtain ⟨w, _⟩ := fe e heF
          rcases w with ⟨l0', hl⟩ | hge
          · simp only [Option.some.injEq, Prod.mk.injEq] at hl
            obtain ⟨h1, _⟩ := hl
            omega
          · omega
        have hFt := outDegL_eq_zero_of_outDeg _ _ (some "true") hDeF0
        have hFf := outDegL_eq_zero_of_outDeg _ _ (some "false") hDeF0
        refine ⟨?_, ?_, ?_, ?_⟩
        · intro lab hh
          exact absurd hh (by simp)
        · simp only [outDeg_append]
          omega
        · simp only [outDegL_append]
          omega
        · simp only [outDegL_append]
          omega
      · -- a decision created in the else-branch
        obtain ⟨u, v⟩ := fn n hn
        rcases fdec n hn hk with ⟨hpp, _, _⟩ | ⟨fneN, foN, ftN, ffN⟩
        · exact absurd hpp (by simp)
        right
        have hP : outDeg (pendEdges p st.nextId) n.id = 0 := by
          apply outDeg_pend_zero
          intro l0 hh
          have := hpv n.id l0 hh
          omega
        have hPT := outDegL_eq_zero_of_outDeg _ _ (some "true") hP
        have hPF := outDegL_eq_zero_of_outDeg _ _ (some "false") hP
        have hDeT0 : outDeg DeT n.id = 0 := by
          apply outDeg_eq_zero
          intro e heT
          obtain ⟨_, w⟩ := te e heT
          omega
        have hTt := outDegL_eq_zero_of_outDeg _ _ (some "true") hDeT0
        have hTf := outDegL_eq_zero_of_outDeg _ _ (some "false") hDeT0
        refine ⟨?_, ?_, ?_, ?_⟩
        · intro lab hh
          exact absurd hh (by simp)
        · simp only [outDeg_append]
          omega
        · simp only [outDegL_append]
          omega
        · simp only [outDegL_append]
          omega
  · -- at least one branch is live: a join node is allocated
    have hX1 : stJ.nextId = stF.nextId + 1 := by
      rw [hjs] at hjX
      exact hjX
    have hP1 : pJ = some (stF.nextId, none) := by
      rw [hjs] at hjP
      exact hjP
    subst hP1
    have hN1 : stJ.nodes = stF.nodes ++ [⟨stF.nextId, "join", NodeKind.process⟩] := by
      rw [hjs] at hjN
      exact hjN
    have hE1 : stJ.edges =
        stF.edges ++ (pendEdges pT stF.nextId ++ pendEdges pF stF.nextId) := by
      rw [hjs] at hjE
      exact hjE
    refine ⟨by omega, ?_, ?_, ?_,
      ⟨st.nextId, cond, NodeKind.decision⟩ ::
        (DnT ++ (DnF ++ [⟨stF.nextId, "join", NodeKind.process⟩])),
      pendEdges p st.nextId ++
        (DeT ++ (DeF ++ (pendEdges pT stF.nextId ++ pendEdges pF stF.nextId))),
      ?_, ?_, ?_, ?_, ?_, ?_⟩
    · intro s0 l0 hh
      simp only [Option.some.injEq, Prod.mk.injEq] at hh
      obtain ⟨h1, _⟩ := hh
      omega
    · right
      intro s0 l0 hh
      simp only [Option.some.injEq, Prod.mk.injEq] at hh
      obtain ⟨h1, _⟩ := hh
      omega
    · intro hd
      simp at hd
    · rw [hN1, fN, tN]
      simp
    · rw [hE1, fE, tE]
      simp
    · intro n hn
      simp only [List.mem_cons, List.mem_append, List.mem_singleton] at hn
      rcases hn with hn | hn | hn | hn | hn
      · have hid : n.id = st.nextId := by rw [hn]
        rw [hid]
        omega
      · obtain ⟨u, v⟩ := tn n hn
        have u' : st.nextId + 1 ≤ n.id := by
          rw [connect_nextId] at u
          exact u
        omega
      · obtain ⟨u, v⟩ := fn n hn
        omega
      · have hid : n.id = stF.nextId := by rw [hn]
        rw [hid]
        omega
      · exact absurd hn (List.not_mem_nil n)
    · intro e he
      simp only [List.mem_append] at he
      rcases he with he | he | he | he | he
      · rcases p with _ | ⟨src, lab⟩
        · simp [pendEdges] at he
        · simp only [pendEdges, List.mem_singleton] at he
          subst he
          have hs := hpv src lab rfl
          exact ⟨Or.inl ⟨lab, rfl⟩, show src < stJ.nextId by omega⟩
      · obtain ⟨u, v⟩ := te e he
        refine ⟨?_, by omega⟩
        rcases u with ⟨l0, hl⟩ | hge
        · simp only [Option.some.injEq, Prod.mk.injEq] at hl
          obtain ⟨h1, _⟩ := hl
          exact Or.inr (by omega)
        · have hge' : st.nextId + 1 ≤ e.fromId := by
            rw [connect_nextId] at hge
            exact hge
          exact Or.inr (by omega)
      · obtain ⟨u, v⟩ := fe e he
        refine ⟨?_, by omega⟩
        rcases u with ⟨l0, hl⟩ | hge
        · simp only [Option.some.injEq, Prod.mk.injEq] at hl
          obtain ⟨h1, _⟩ := hl
          exact Or.inr (by omega)
        · exact Or.inr (by omega)
      · rcases pT with _ | ⟨src, lab⟩
        · simp [pendEdges] at he
        · simp only [pendEdges, List.mem_singleton] at he
          subst he
          have hs := t2 src lab rfl
          have hg := t3' src lab rfl
          exact ⟨Or.inr hg, show src < stJ.nextId by omega⟩
      · rcases pF with _ | ⟨src, lab⟩
        · simp [pendEdges] at he
        · simp only [pendEdges, List.mem_singleton] at he
          subst he
          have hs := f2 src lab rfl
          have hg := f3' src lab rfl
          exact ⟨Or.inr hg, show src < stJ.nextId by omega⟩
    · intro s0 l0 hp0
      subst hp0
      right
      have hs0 := hpv s0 l0 rfl
      have hDeT : outDeg DeT s0 = 0 := by
        apply outDeg_eq_zero
        intro e heD
        obtain ⟨u, _⟩ := te e heD
        rcases u with ⟨l0', hl⟩ | hge
        · simp only [Option.some.injEq, Prod.mk.injEq] at hl
          obtain ⟨h1, _⟩ := hl
          omega
        · have hge' : st.nextId + 1 ≤ e.fromId := by
            rw [connect_nextId] at hge
            exact hge
          omega
      have hDeF : outDeg DeF s0 = 0 := by
        apply outDeg_eq_zero
        intro e heD
        obtain ⟨u, _⟩ := fe e heD
        rcases u with ⟨l0', hl⟩ | hge
        · simp only [Option.some.injEq, Prod.mk.injEq] at hl
          obtain ⟨h1, _⟩ := hl
          omega
        · omega
      have hpT0 : outDeg (pendEdges pT stF.nextId) s0 = 0 := by
        apply outDeg_pend_zero
        intro l0' hh
        have := t3' s0 l0' hh
        omega
      have hpF0 : outDeg (pendEdges pF stF.nextId) s0 = 0 := by
        apply outDeg_pend_zero
        intro l0' hh
        have := f3' s0 l0' hh
        omega
      refine ⟨?_, ?_, ?_⟩
      · simp only [outDeg_append]
        rw [outDeg_pend_eq]
        omega
      · have hTL := outDegL_eq_zero_of_outDeg _ _ l0 hDeT
        have hFL := outDegL_eq_zero_of_outDeg _ _ l0 hDeF
        have hTL2 := outDegL_eq_zero_of_outDeg _ _ l0 hpT0
        have hFL2 := outDegL_eq_zero_of_outDeg _ _ l0 hpF0
        simp only [outDegL_append]
        rw [outDegL_pend_eq]
        omega
      · intro lab hh
        simp only [Option.some.injEq, Prod.mk.injEq] at hh
        obtain ⟨h1, _⟩ := hh
        omega
    · intro n hn hk
      simp only [List.mem_cons, List.mem_append, List.mem_singleton] at hn
      rcases hn with hn | hn | hn | hn | hn
      · -- the If decision node completes through branch or join edges
        have hid : n.id = st.nextId := by rw [hn]
        right
        rw [hid]
        have hP : outDeg (pendEdges p st.nextId) st.nextId = 0 := by
          apply outDeg_pend_zero
          intro l0 hh
          have := hpv st.nextId l0 hh
          omega
        have hPT := outDegL_eq_zero_of_outDeg _ _ (some "true") hP
        have hPF := outDegL_eq_zero_of_outDeg _ _ (some "false") hP
        have hTside : outDeg DeT st.nextId + outDeg (pendEdges pT stF.nextId) st.nextId = 1 ∧
            outDegL DeT st.nextId (some "true") +
              outDegL (pendEdges pT stF.nextId) st.nextId (some "true") = 1 ∧
            outDegL DeT st.nextId (some "false") +
              outDegL (pendEdges pT stF.nextId) st.nextId (some "false") = 0 := by
          rcases tcons st.nextId (some "true") rfl with ⟨hpp, hz⟩ | ⟨ho, ht, hne⟩
          · subst hpp
            have h1 : outDeg (pendEdges (some (st.nextId, some "true")) stF.nextId)
                st.nextId = 1 := outDeg_pend_eq _ _ _
            have h2 : outDegL (pendEdges (some (st.nextId, some "true")) stF.nextId)
                st.nextId (some "true") = 1 := outDegL_pend_eq _ _ _
            have h3 : outDegL (pendEdges (some (st.nextId, some "true")) stF.nextId)
                st.nextId (some "false") = 0 :=
              outDegL_pend_ne_label _ _ _ _ (by simp)
            have hzT := outDegL_eq_zero_of_outDeg _ _ (some "true") hz
            have hzF := outDegL_eq_zero_of_outDeg _ _ (some "false") hz
            omega
          · have h1 : outDeg (pendEdges pT stF.nextId) st.nextId = 0 :=
              outDeg_pend_zero _ _ _ hne
            have h2 := outDegL_eq_zero_of_outDeg _ _ (some "true") h1
            have h3 := outDegL_eq_zero_of_outDeg _ _ (some "false") h1
            have htF : outDegL DeT st.nextId (some "false") = 0 := by
              have hp1 := outDegL_pair_le DeT st.nextId (some "true") (some "false") (by simp)
              omega
            omega
        have hFside : outDeg DeF st.nextId + outDeg (pendEdges pF stF.nextId) st.nextId = 1 ∧
            outDegL DeF st.nextId (some "false") +
              outDegL (pendEdges pF stF.nextId) st.nextId (some "false") = 1 ∧
            outDegL DeF st.nextId (some "true") +
              outDegL (pendEdges pF stF.nextId) st.nextId (some "true") = 0 := by
          rcases fcons st.nextId (some "false") rfl with ⟨hpp, hz⟩ | ⟨ho, ht, hne⟩
          · subst hpp
            have h1 : outDeg (pendEdges (some (st.nextId, some "false")) stF.nextId)
                st.nextId = 1 := outDeg_pend_eq _ _ _
            have h2 : outDegL (pendEdges (some (st.nextId, some "false")) stF.nextId)
                st.nextId (some "false") = 1 := outDegL_pend_eq _ _ _
            have h3 : outDegL (pendEdges (some (st.nextId, some "false")) stF.nextId)
                st.nextId (some "true") = 0 :=
              outDegL_pend_ne_label _ _ _ _ (by simp)
            have hzT := outDegL_eq_zero_of_outDeg _ _ (some "true") hz
            have hzF := outDegL_eq_zero_of_outDeg _ _ (some "false") hz
            omega
          · have h1 : outDeg (pendEdges pF stF.nextId) st.nextId = 0 :=
              outDeg_pend_zero _ _ _ hne
            have h2 := outDegL_eq_zero_of_outDeg _ _ (some "true") h1
            have h3 := outDegL_eq_zero_of_outDeg _ _ (some "false") h1
            have hfT : outDegL DeF st.nextId (some "true") = 0 := by
              have hp1 := outDegL_pair_le DeF st.nextId (some "true") (some "false") (by simp)
              omega
            omega
        obtain ⟨hs1, hs2, hs3⟩ := hTside
        obtain ⟨hq1, hq2, hq3⟩ := hFside
        refine ⟨?_, ?_, ?_, ?_⟩
        · intro lab hh
          simp only [Option.some.injEq, Prod.mk.injEq] at hh
          obtain ⟨h1, _⟩ := hh
          omega
        · simp only [outDeg_append]
          omega
        · simp only [outDegL_append]
          omega
        · simp only [outDegL_append]
          omega
      · -- a decision created in the then-branch
        obtain ⟨u, v⟩ := tn n hn
        have u' : st.nextId + 1 ≤ n.id := by
          rw [connect_nextId] at u
          exact u
        right
        have hP : outDeg (pendEdges p st.nextId) n.id = 0 := by
          apply outDeg_pend_zero
          intro l0 hh
          have := hpv n.id l0 hh
          omega
        have hPT := outDegL_eq_zero_of_outDeg _ _ (some "true") hP
        have hPF := outDegL_eq_zero_of_outDeg _ _ (some "false") hP
        have hDeF0 : outDeg DeF n.id = 0 := by
          apply outDeg_eq_zero
          intro e heF
          obtain ⟨w, _⟩ := fe e heF
          rcases w with ⟨l0', hl⟩ | hge
          · simp only [Option.some.injEq, Prod.mk.injEq] at hl
            obtain ⟨h1, _⟩ := hl
            omega
          · omega
        have hFt := outDegL_eq_zero_of_outDeg _ _ (some "true") hDeF0
        have hFf := outDegL_eq_zero_of_outDeg _ _ (some "false") hDeF0
        have hpF0 : outDeg (pendEdges pF stF.nextId) n.id = 0 := by
          apply outDeg_pend_zero
          intro l0' hh
          rcases f3 with hb | hb
          · rw [hb] at hh
            simp only [Option.some.injEq, Prod.mk.injEq] at hh
            obtain ⟨h1, _⟩ := hh
            omega
          · have := hb n.id l0' hh
            omega
        have hpFt := outDegL_eq_zero_of_outDeg _ _ (some "true") hpF0
        have hpFf := outDegL_eq_zero_of_outDeg _ _ (some "false") hpF0
        rcases tdec n hn hk with ⟨hpp, ho, ht⟩ | ⟨tneN, toN, ttN, tfN⟩
        · -- partial: completed by its join edge labelled "false"
          subst hpp
          have hJ1 : outDeg (pendEdges (some (n.id, some "false")) stF.nextId) n.id = 1 :=
            outDeg_pend_eq _ _ _
          have hJ2 : outDegL (pendEdges (some (n.id, some "false")) stF.nextId) n.id
              (some "true") = 0 :=
            outDegL_pend_ne_label _ _ _ _ (by simp)
          have hJ3 : outDegL (pendEdges (some (n.id, some "false")) stF.nextId) n.id
              (some "false") = 1 :=
            outDegL_pend_eq _ _ _
          have hfD : outDegL DeT n.id (some "false") = 0 := by
            have hp1 := outDegL_pair_le DeT n.id (some "true") (some "false") (by simp)
            omega
          refine ⟨?_, ?_, ?_, ?_⟩
          · intro lab hh
            simp only [Option.some.injEq, Prod.mk.injEq] at hh
            obtain ⟨h1, _⟩ := hh
            omega
          · simp only [outDeg_append]
            omega
          · simp only [outDegL_append]
            omega
          · simp only [outDegL_append]
            omega
        · have hpT0 : outDeg (pendEdges pT stF.nextId) n.id = 0 :=
            outDeg_pend_zero _ _ _ tneN
          have hpTt := outDegL_eq_zero_of_outDeg _ _ (some "true") hpT0
          have hpTf := outDegL_eq_zero_of_outDeg _ _ (some "false") hpT0
          refine ⟨?_, ?_, ?_, ?_⟩
          · intro lab hh
            simp only [Option.some.injEq, Prod.mk.injEq] at hh
            obtain ⟨h1, _⟩ := hh
            omega
          · simp only [outDeg_append]
            omega
          · simp only [outDegL_append]
            omega
          · simp only [outDegL_append]
            omega
      · -- a decision created in the else-branch
        obtain ⟨u, v⟩ := fn n hn
        right
        have hP : outDeg (pendEdges p st.nextId) n.id = 0 := by
          apply outDeg_pend_zero
          intro l0 hh
          have := hpv n.id l0 hh
          omega
        have hPT := outDegL_eq_zero_of_outDeg _ _ (some "true") hP
        have hPF := outDegL_eq_zero_of_outDeg _ _ (some "false") hP
        have hDeT0 : outDeg DeT n.id = 0 := by
          apply outDeg_eq_zero
          intro e heT
          obtain ⟨_, w⟩ := te e heT
          omega
        have hTt := outDegL_eq_zero_of_outDeg _ _ (some "true") hDeT0
        have hTf := outDegL_eq_zero_of_outDeg _ _ (some "false") hDeT0
        have hpT0 : outDeg (pendEdges pT stF.nextId) n.id = 0 := by
          apply outDeg_pend_zero
          intro l0' hh
          have := t2 n.id l0' hh
          omega
        have hpTt := outDegL_eq_zero_of_outDeg _ _ (some "true") hpT0
        have hpTf := outDegL_eq_zero_of_outDeg _ _ (some "false") hpT0
        rcases fdec n hn hk with ⟨hpp, ho, ht⟩ | ⟨fneN, foN, ftN, ffN⟩
        · subst hpp
          have hJ1 : outDeg (pendEdges (some (n.id, some "false")) stF.nextId) n.id = 1 :=
            outDeg_pend_eq _ _ _
          have hJ2 : outDegL (pendEdges (some (n.id, some "false")) stF.nextId) n.id
              (some "true") = 0 :=
            outDegL_pend_ne_label _ _ _ _ (by simp)
          have hJ3 : outDegL (pendEdges (some (n.id, some "false")) stF.nextId) n.id
              (some "false") = 1 :=
            outDegL_pend_eq _ _ _
          have hfD : outDegL DeF n.id (some "false") = 0 := by
            have hp1 := outDegL_pair_le DeF n.id (some "true") (some "false") (by simp)
            omega
          refine ⟨?_, ?_, ?_, ?_⟩
          · intro lab hh
            simp only [Option.some.injEq, Prod.mk.injEq] at hh
            obtain ⟨h1, _⟩ := hh
            omega
          · simp only [outDeg_append]
            omega
          · simp only [outDegL_append]
            omega
          · simp only [outDegL_append]
            omega
        · have hpF0 : outDeg (pendEdges pF stF.nextId) n.id = 0 :=
            outDeg_pend_zero _ _ _ fneN
          have hpFt := outDegL_eq_zero_of_outDeg _ _ (some "true") hpF0
          have hpFf := outDegL_eq_zero_of_outDeg _ _ (some "false") hpF0
          refine ⟨?_, ?_, ?_, ?_⟩
          · intro lab hh
            simp only [Option.some.injEq, Prod.mk.injEq] at hh
            obtain ⟨h1, _⟩ := hh
            omega
          · simp only [outDeg_append]
            omega
          · simp only [outDegL_append]
            omega
          · simp only [outDegL_append]
            omega
      · -- the join node is a process node, never a decision
        rw [hn] at hk
        simp at hk
      · exact absurd hn (List.not_mem_nil n)

end Analyzer

namespace Analyzer

mutual

theorem outSpec_stmt (d : Bool) (endId : Nat) (st : BState) (p : Option Pend) (s : SNode)
    (st' : BState) (p' : Option Pend) (h : buildStmt d endId st p s = (st', p'))
    (hpv : ∀ s0 l0, p = some (s0, l0) → s0 < st.nextId) :
    OutSpec d st p st' p' := by
  cases s with
  | functionDef name params body =>
      simp only [buildStmt] at h
      rcases hN1 : newNode st .start "start" with ⟨st1, sId⟩
      rw [hN1] at h
      dsimp only at h
      rcases hN2 : newNode st1 .stop "end" with ⟨st2, eId⟩
      rw [hN2] at h
      dsimp only at h
      rcases hB : buildSeq false eId st2 (some (sId, none)) body with ⟨stB, pB⟩
      rw [hB] at h
      dsimp only at h
      injection h with h1 h2
      subst h1
      subst h2
      injection hN1 with hA hB1
      subst hA
      subst hB1
      injection hN2 with hA2 hB2
      subst hA2
      subst hB2
      exact outSpec_fn_core d st p stB pB
        (outSpec_seq false (st.nextId + 1)
          ⟨st.nextId + 1 + 1,
            (st.nodes ++ [⟨st.nextId, "start", NodeKind.start⟩]) ++
              [⟨st.nextId + 1, "end", NodeKind.stop⟩], st.edges⟩
          (some (st.nextId, none)) body stB pB hB
          (by
            intro s0 l0 hh
            simp only [Option.some.injEq, Prod.mk.injEq] at hh
            obtain ⟨h1, _⟩ := hh
            show s0 < st.nextId + 1 + 1
            omega)) hpv
  | classDef name body =>
      simp only [buildStmt] at h
      rcases hB : buildSeq true endId st none body with ⟨stB, pB⟩
      rw [hB] at h
      dsimp only at h
      injection h with h1 h2
      subst h1
      subst h2
      exact outSpec_class_core d st p stB pB
        (outSpec_seq true endId st none body stB pB hB (by intro s0 l0 hh; simp at hh)) hpv
  | sif cond thenB elseB =>
      cases d with
      | true =>
          simp only [buildStmt, if_true] at h
          injection h with h1 h2
          subst h1
          subst h2
          exact outSpec_id true st p hpv
      | false =>
          simp only [buildStmt, Bool.false_eq_true, if_false] at h
          rcases hN : newNode st .decision cond with ⟨st1, dId⟩
          rw [hN] at h
          dsimp only at h
          rcases hB1 : buildSeq false endId (connect st1 p dId)
              (some (dId, some "true")) thenB with ⟨stT, pT⟩
          rw [hB1] at h
          dsimp only at h
          rcases hB2 : buildSeq false endId stT (some (dId, some "false")) elseB with ⟨stF, pF⟩
          rw [hB2] at h
          dsimp only at h
          injection hN with hA hB'
          subst hA
          subst hB'
          have HT := outSpec_seq false endId
            (connect ⟨st.nextId + 1,
              st.nodes ++ [⟨st.nextId, cond, NodeKind.decision⟩], st.edges⟩ p st.nextId)
            (some (st.nextId, some "true")) thenB stT pT hB1
            (by
              intro s0 l0 hh
              simp only [Option.some.injEq, Prod.mk.injEq] at hh
              obtain ⟨h1, _⟩ := hh
              rw [connect_nextId]
              show s0 < st.nextId + 1
              omega)
          have ht1 : st.nextId + 1 ≤ stT.nextId := by
            have := HT.1
            rw [connect_nextId] at this
            exact this
          have HF := outSpec_seq false endId stT (some (st.nextId, some "false")) elseB
            stF pF hB2
            (by
              intro s0 l0 hh
              simp only [Option.some.injEq, Prod.mk.injEq] at hh
              obtain ⟨h1, _⟩ := hh
              omega)
          exact outSpec_sif_core st p cond stT stF st' pT pF p' HT HF h hpv
  | sfor cond body =>
      cases d with
      | true =>
          simp only [buildStmt, if_true] at h
          injection h with h1 h2
          subst h1
          subst h2
          exact outSpec_id true st p hpv
      | false =>
          simp only [buildStmt, Bool.false_eq_true, if_false] at h
          rcases hN : newNode st .decision cond with ⟨st1, cId⟩
          rw [hN] at h
          dsimp only at h
          rcases hB : buildSeq false endId (connect st1 p cId)
              (some (cId, some "true")) body with ⟨stB, pB⟩
          rw [hB] at h
          dsimp only at h
          injection h with h1 h2
          subst h1
          subst h2
          injection hN with hA hB'
          subst hA
          subst hB'
          exact outSpec_loop_core st p cond stB pB
            (outSpec_seq false endId
              (connect ⟨st.nextId + 1,
                st.nodes ++ [⟨st.nextId, cond, NodeKind.decision⟩], st.edges⟩ p st.nextId)
              (some (st.nextId, some "true")) body stB pB hB
              (by
                intro s0 l0 hh
                simp only [Option.some.injEq, Prod.mk.injEq] at hh
                obtain ⟨h1, _⟩ := hh
                rw [connect_nextId]
                show s0 < st.nextId + 1
                omega)) hpv
  | swhile cond body =>
      cases d with
      | true =>
          simp only [buildStmt, if_true] at h
          injection h with h1 h2
          subst h1
          subst h2
          exact outSpec_id true st p hpv
      | false =>
          simp only [buildStmt, Bool.false_eq_true, if_false] at h
          rcases hN : newNode st .decision cond with ⟨st1, cId⟩
          rw [hN] at h
          dsimp only at h
          rcases hB : buildSeq false endId (connect st1 p cId)
              (some (cId, some "true")) body with ⟨stB, pB⟩
          rw [hB] at h
          dsimp only at h
          injection h with h1 h2
          subst h1
          subst h2
          injection hN with hA hB'
          subst hA
          subst hB'
          exact outSpec_loop_core st p cond stB pB
            (outSpec_seq false endId
              (connect ⟨st.nextId + 1,
                st.nodes ++ [⟨st.nextId, cond, NodeKind.decision⟩], st.edges⟩ p st.nextId)
              (some (st.nextId, some "true")) body stB pB hB
              (by
                intro s0 l0 hh
                simp only [Option.some.injEq, Prod.mk.injEq] at hh
                obtain ⟨h1, _⟩ := hh
                rw [connect_nextId]
                show s0 < st.nextId + 1
                omega)) hpv
  | scall target =>
      cases d with
      | true =>
          simp only [buildStmt, if_true] at h
          injection h with h1 h2
          subst h1
          subst h2
          exact outSpec_id true st p hpv
      | false =>
          simp only [buildStmt, Bool.false_eq_true, if_false] at h
          injection h with h1 h2
          subst h1
          subst h2
          exact outSpec_leaf st p target .call _ _ rfl rfl (by decide) hpv
  | sret =>
      cases d with
      | true =>
          simp only [buildStmt, if_true] at h
          injection h with h1 h2
          subst h1
          subst h2
          exact outSpec_id true st p hpv
      | false =>
          simp only [buildStmt, Bool.false_eq_true, if_false] at h
          injection h with h1 h2
          subst h1
          subst h2
          exact outSpec_ret_core endId st p hpv
  | plain label =>
      cases d with
      | true =>
          simp only [buildStmt, if_true] at h
          injection h with h1 h2
          subst h1
          subst h2
          exact outSpec_id true st p hpv
      | false =>
          simp only [buildStmt, Bool.false_eq_true, if_false] at h
          injection h with h1 h2
          subst h1
          subst h2
          exact outSpec_leaf st p label .process _ _ rfl rfl (by decide) hpv

theorem outSpec_seq (d : Bool) (endId : Nat) (st : BState) (p : Option Pend) (l : SList)
    (st' : BState) (p' : Option Pend) (h : buildSeq d endId st p l = (st', p'))
    (hpv : ∀ s0 l0, p = some (s0, l0) → s0 < st.nextId) :
    OutSpec d st p st' p' := by
  cases l with
  | nil =>
      simp only [buildSeq] at h
      injection h with h1 h2
      subst h1
      subst h2
      exact outSpec_id d st p hpv
  | cons s rest =>
      simp only [buildSeq] at h
      rcases hmid : buildStmt d endId st p s with ⟨mid, pmid⟩
      rw [hmid] at h
      dsimp only at h
      have H1 := outSpec_stmt d endId st p s mid pmid hmid hpv
      have hpv2 : ∀ s0 l0, pmid = some (s0, l0) → s0 < mid.nextId := H1.2.1
      have H2 := outSpec_seq d endId mid pmid rest st' p' h hpv2
      exact outSpec_comp d st mid st' p pmid p' H1 H2 hpv

end

end Analyzer

namespace Analyzer

theorem countIfs_defsOnly : ∀ (r : SList), hasFlowStmt r = false →
    countIfsSeq true r = countIfsSeq false r
  | .nil, _ => rfl
  | .cons s rest, hf => by
      simp only [hasFlowStmt, Bool.or_eq_false_iff] at hf
      obtain ⟨hf1, hf2⟩ := hf
      have ih := countIfs_defsOnly rest hf2
      cases s with
      | functionDef name params body => simp [countIfsSeq, countIfsStmt, ih]
      | classDef name body => simp [countIfsSeq, countIfsStmt, ih]
      | sif cond thenB elseB => simp [isFlowStmt] at hf1
      | sfor cond body => simp [isFlowStmt] at hf1
      | swhile cond body => simp [isFlowStmt] at hf1
      | scall target => simp [isFlowStmt] at hf1
      | sret => simp [isFlowStmt] at hf1
      | plain label => simp [isFlowStmt] at hf1

theorem countLoops_defsOnly : ∀ (r : SList), hasFlowStmt r = false →
    countLoopsSeq true r = countLoopsSeq false r
  | .nil, _ => rfl
  | .cons s rest, hf => by
      simp only [hasFlowStmt, Bool.or_eq_false_iff] at hf
      obtain ⟨hf1, hf2⟩ := hf
      have ih := countLoops_defsOnly rest hf2
      cases s with
      | functionDef name params body => simp [countLoopsSeq, countLoopsStmt, ih]
      | classDef name body => simp [countLoopsSeq, countLoopsStmt, ih]
      | sif cond thenB elseB => simp [isFlowStmt] at hf1
      | sfor cond body => simp [isFlowStmt] at hf1
      | swhile cond body => simp [isFlowStmt] at hf1
      | scall target => simp [isFlowStmt] at hf1
      | sret => simp [isFlowStmt] at hf1
      | plain label => simp [isFlowStmt] at hf1

theorem goodLoops_defsOnly : ∀ (r : SList), hasFlowStmt r = false →
    goodLoopsSeq true r = goodLoopsSeq false r
  | .nil, _ => rfl
  | .cons s rest, hf => by
      simp only [hasFlowStmt, Bool.or_eq_false_iff] at hf
      obtain ⟨hf1, hf2⟩ := hf
      have ih := goodLoops_defsOnly rest hf2
      cases s with
      | functionDef name params body => simp [goodLoopsSeq, goodLoopsStmt, ih]
      | classDef name body => simp [goodLoopsSeq, goodLoopsStmt, ih]
      | sif cond thenB elseB => simp [isFlowStmt] at hf1
      | sfor cond body => simp [isFlowStmt] at hf1
      | swhile cond body => simp [isFlowStmt] at hf1
      | scall target => simp [isFlowStmt] at hf1
      | sret => simp [isFlowStmt] at hf1
      | plain label => simp [isFlowStmt] at hf1

end Analyzer

namespace Analyzer

/-- C8 (amended; spec-modelled Graph Builder): for every record accepted by
`build_graph_model`, the model has exactly one decision node per lowered
`If` and per lowered `For`/`While`, and every decision node has exactly two
outgoing edges, one labelled "true" and one labelled "false" — these
parts hold for every accepted record.  Additionally, whenever
`goodLoopsSeq` holds (every loop body ends with a plain or call
statement), the `"loop"`-labelled back-edges number exactly one per loop
and each targets a decision (condition) node.  Without that condition the
loop part of the claim fails: a loop whose body returns leaves its
condition with no back-edge. -/
theorem C8_decision_back_edges (r : SList) (g : GraphModel)
    (hb : build_graph_model r = .ok g) :
    countKind g NodeKind.decision = countIfsSeq false r + countLoopsSeq false r ∧
    (∀ n ∈ g.nodes, n.kind = NodeKind.decision →
      outDeg g.edges n.id = 2 ∧
      outDegL g.edges n.id (some "true") = 1 ∧
      outDegL g.edges n.id (some "false") = 1) ∧
    (goodLoopsSeq false r = true →
      loopEdges g.edges = countLoopsSeq false r ∧
      (∀ e ∈ g.edges, e.label = some "loop" →
        ∃ n ∈ g.nodes, n.id = e.toId ∧ n.kind = NodeKind.decision)) := by
  unfold build_graph_model at hb
  by_cases h0 : (countFnsSeq false r = 0 && !hasFlowStmt r) = true
  · rw [if_pos h0] at hb
    exact absurd hb (by simp)
  rw [if_neg h0] at hb
  by_cases hflow : hasFlowStmt r = true
  · rw [if_pos hflow] at hb
    simp only [newNode] at hb
    rcases hB : buildSeq false (0 + 1)
        (⟨0 + 1 + 1, [] ++ [⟨0, "start", NodeKind.start⟩] ++ [⟨0 + 1, "end", NodeKind.stop⟩],
          []⟩ : BState)
        (some (0, none)) r with ⟨res1, res2⟩
    rw [hB] at hb
    dsimp only at hb
    injection hb with hg
    subst hg
    have HS := outSpec_seq false (0 + 1)
        (⟨0 + 1 + 1, [] ++ [⟨0, "start", NodeKind.start⟩] ++ [⟨0 + 1, "end", NodeKind.stop⟩],
          []⟩ : BState) (some (0, none)) r res1 res2 hB
        (by
          intro s0 l0 hh
          simp only [Option.some.injEq, Prod.mk.injEq] at hh
          obtain ⟨h1, _⟩ := hh
          show s0 < 0 + 1 + 1
          omega)
    have HD : OutSpec false (⟨0, [], []⟩ : BState) none (connect res1 res2 (0 + 1)) none :=
      outSpec_fn_core false (⟨0, [], []⟩ : BState) none res1 res2 HS
        (by intro s0 l0 hh; simp at hh)
    obtain ⟨-, -, -, -, Dn, De, hN, hE, -, -, -, hdec⟩ := HD
    have hE' : (connect res1 res2 (0 + 1)).edges = De := by simpa using hE
    refine ⟨?_, ?_, ?_⟩
    · have hdc := decCount_seq false (0 + 1)
          (⟨0 + 1 + 1, [] ++ [⟨0, "start", NodeKind.start⟩] ++ [⟨0 + 1, "end", NodeKind.stop⟩],
            []⟩ : BState) (some (0, none)) r
      rw [hB] at hdc
      simp only [countKind, connect_nodes]
      rw [hdc]
      simp [List.countP_append, List.countP_cons]
    · intro n hn hk
      have hn2 : n ∈ Dn := by
        have hnc : n ∈ (connect res1 res2 (0 + 1)).nodes := hn
        rw [hN] at hnc
        simpa using hnc
      rcases hdec n hn2 hk with ⟨hpp, _, _⟩ | ⟨-, ho, ht, hf⟩
      · exact absurd hpp (by simp)
      refine ⟨?_, ?_, ?_⟩
      · show outDeg (connect res1 res2 (0 + 1)).edges n.id = 2
        rw [hE']
        exact ho
      · show outDegL (connect res1 res2 (0 + 1)).edges n.id (some "true") = 1
        rw [hE']
        exact ht
      · show outDegL (connect res1 res2 (0 + 1)).edges n.id (some "false") = 1
        rw [hE']
        exact hf
    · intro hgl
      obtain ⟨c1, c2, c3, c4⟩ := loopCount_seq false (0 + 1)
          (⟨0 + 1 + 1, [] ++ [⟨0, "start", NodeKind.start⟩] ++ [⟨0 + 1, "end", NodeKind.stop⟩],
            []⟩ : BState) (some (0, none)) r res1 res2 hB hgl
          (by intro s0 hh; simp at hh)
      refine ⟨?_, ?_⟩
      · show loopEdges (connect res1 res2 (0 + 1)).edges = countLoopsSeq false r
        rw [loopEdges_connect _ _ _ c2, c1]
        simp [loopEdges]
      · intro e he hlab
        have he' : e ∈ (connect res1 res2 (0 + 1)).edges := he
        rcases mem_connect_cases _ _ _ _ he' with hin | ⟨src, lab, hsome, hedge⟩
        · rcases c4 e hin with hin2 | hnl | ⟨n, hnn, hni, hnk⟩
          · simp at hin2
          · exact absurd hlab hnl
          · refine ⟨n, ?_, hni, hnk⟩
            show n ∈ (connect res1 res2 (0 + 1)).nodes
            rw [connect_nodes]
            exact hnn
        · subst hedge
          have hnl : ¬ lab = some "loop" := by
            intro hh
            rw [hh] at hsome
            exact c2 src hsome
          exact absurd hlab hnl
  · rw [if_neg hflow] at hb
    dsimp only at hb
    rcases hB : buildSeq true 0 (⟨0, [], []⟩ : BState) none r with ⟨res1, res2⟩
    rw [hB] at hb
    dsimp only at hb
    injection hb with hg
    subst hg
    have hfalse : hasFlowStmt r = false := by
      rcases h1 : hasFlowStmt r with _ | _
      · rfl
      · exact absurd h1 hflow
    have HS := outSpec_seq true 0 (⟨0, [], []⟩ : BState) none r res1 res2 hB
        (by intro s0 l0 hh; simp at hh)
    obtain ⟨-, -, -, b4, Dn, De, hN, hE, -, -, -, hdec⟩ := HS
    have hres2 : res2 = none := b4 rfl
    subst hres2
    have hN'' : res1.nodes = Dn := by simpa using hN
    have hE'' : res1.edges = De := by simpa using hE
    refine ⟨?_, ?_, ?_⟩
    · have hdc := decCount_seq true 0 (⟨0, [], []⟩ : BState) none r
      rw [hB] at hdc
      simp only [countKind]
      rw [hdc, countIfs_defsOnly r hfalse, countLoops_defsOnly r hfalse]
      simp
    · intro n hn hk
      have hn2 : n ∈ Dn := by
        rw [← hN'']
        exact hn
      rcases hdec n hn2 hk with ⟨hpp, _, _⟩ | ⟨-, ho, ht, hf⟩
      · exact absurd hpp (by simp)
      refine ⟨?_, ?_, ?_⟩
      · show outDeg res1.edges n.id = 2
        rw [hE'']
        exact ho
      · show outDegL res1.edges n.id (some "true") = 1
        rw [hE'']
        exact ht
      · show outDegL res1.edges n.id (some "false") = 1
        rw [hE'']
        exact hf
    · intro hgl
      obtain ⟨c1, c2, c3, c4⟩ := loopCount_seq true 0 (⟨0, [], []⟩ : BState) none r res1
          none hB
          (by rw [goodLoops_defsOnly r hfalse]; exact hgl)
          (by intro s0 hh; simp at hh)
      refine ⟨?_, ?_⟩
      · show loopEdges res1.edges = countLoopsSeq false r
        rw [c1, countLoops_defsOnly r hfalse]
        simp [loopEdges]
      · intro e he hlab
        have he' : e ∈ res1.edges := he
        rcases c4 e he' with hin2 | hnl | ⟨n, hnn, hni, hnk⟩
        · simp at hin2
        · exact absurd hlab hnl
        · exact ⟨n, hnn, hni, hnk⟩

end Analyzer

namespace Analyzer

/-- C8 counterexample (spec-modelled Graph Builder): for the record of
`def f():\n    while c:\n        return`, the builder succeeds, the record
contains one loop construct, yet the model carries no `"loop"`-labelled
back-edge at all, and the only edge pointing at the loop's condition node
(id 2) is the forward edge from the function's start node — the loop's
body returns, so no back-edge to its own condition node exists, refuting
"for every For/While loop there is exactly one back-edge whose target is
that loop's own condition node". -/
theorem C8_counterexample :
    build_graph_model
        (.cons (.functionDef "f" [] (.cons (.swhile "c" (.cons .sret .nil)) .nil)) .nil)
      = .ok ⟨[⟨0, "start", NodeKind.start⟩, ⟨1, "end", NodeKind.stop⟩,
              ⟨2, "c", NodeKind.decision⟩, ⟨3, "return", NodeKind.process⟩],
             [⟨0, 2, none⟩, ⟨2, 3, some "true"⟩, ⟨3, 1, none⟩, ⟨2, 1, some "false"⟩]⟩ ∧
    countLoopsSeq false
        (.cons (.functionDef "f" [] (.cons (.swhile "c" (.cons .sret .nil)) .nil)) .nil) = 1 ∧
    loopEdges [⟨0, 2, none⟩, ⟨2, 3, some "true"⟩, ⟨3, 1, none⟩,
      (⟨2, 1, some "false"⟩ : GEdge)] = 0 ∧
    (∀ e ∈ [⟨0, 2, none⟩, ⟨2, 3, some "true"⟩, ⟨3, 1, none⟩,
        (⟨2, 1, some "false"⟩ : GEdge)], e.toId = 2 → e.fromId = 0) := by
  refine ⟨rfl, rfl, rfl, by decide⟩

/-- C8 witness: the record of `def f():\n    while c:\n        g()` — a
loop whose body ends with a call — satisfies the amended theorem's
hypotheses, and the theorem applied to it yields the decision-node count,
the two labelled out-edges of the condition node, and the single
`"loop"`-labelled back-edge targeting a decision node. -/
theorem C8_decision_back_edges_witness :
    (build_graph_model
        (.cons (.functionDef "f" [] (.cons (.swhile "c" (.cons (.scall "g") .nil)) .nil)) .nil)
      = .ok ⟨[⟨0, "start", NodeKind.start⟩, ⟨1, "end", NodeKind.stop⟩,
              ⟨2, "c", NodeKind.decision⟩, ⟨3, "g", NodeKind.call⟩],
             [⟨0, 2, none⟩, ⟨2, 3, some "true"⟩, ⟨3, 2, some "loop"⟩, ⟨2, 1, some "false"⟩]⟩ ∧
      goodLoopsSeq false
        (.cons (.functionDef "f" [] (.cons (.swhile "c" (.cons (.scall "g") .nil)) .nil)) .nil)
        = true) ∧
    (countKind
        ⟨[⟨0, "start", NodeKind.start⟩, ⟨1, "end", NodeKind.stop⟩,
            ⟨2, "c", NodeKind.decision⟩, ⟨3, "g", NodeKind.call⟩],
          [⟨0, 2, none⟩, ⟨2, 3, some "true"⟩, ⟨3, 2, some "loop"⟩, ⟨2, 1, some "false"⟩]⟩
        NodeKind.decision =
      countIfsSeq false
          (.cons (.functionDef "f" [] (.cons (.swhile "c" (.cons (.scall "g") .nil)) .nil))
            .nil) +
        countLoopsSeq false
          (.cons (.functionDef "f" [] (.cons (.swhile "c" (.cons (.scall "g") .nil)) .nil))
            .nil) ∧
      (∀ n ∈ (⟨[⟨0, "start", NodeKind.start⟩, ⟨1, "end", NodeKind.stop⟩,
            ⟨2, "c", NodeKind.decision⟩, ⟨3, "g", NodeKind.call⟩],
          [⟨0, 2, none⟩, ⟨2, 3, some "true"⟩, ⟨3, 2, some "loop"⟩,
            ⟨2, 1, some "false"⟩]⟩ : GraphModel).nodes,
        n.kind = NodeKind.decision →
          outDeg [⟨0, 2, none⟩, ⟨2, 3, some "true"⟩, ⟨3, 2, some "loop"⟩,
              (⟨2, 1, some "false"⟩ : GEdge)] n.id = 2 ∧
          outDegL [⟨0, 2, none⟩, ⟨2, 3, some "true"⟩, ⟨3, 2, some "loop"⟩,
              (⟨2, 1, some "false"⟩ : GEdge)] n.id (some "true") = 1 ∧
          outDegL [⟨0, 2, none⟩, ⟨2, 3, some "true"⟩, ⟨3, 2, some "loop"⟩,
              (⟨2, 1, some "false"⟩ : GEdge)] n.id (some "false") = 1) ∧
      loopEdges [⟨0, 2, none⟩, ⟨2, 3, some "true"⟩, ⟨3, 2, some "loop"⟩,
          (⟨2, 1, some "false"⟩ : GEdge)] =
        countLoopsSeq false
          (.cons (.functionDef "f" [] (.cons (.swhile "c" (.cons (.scall "g") .nil)) .nil))
            .nil) ∧
      (∀ e ∈ [⟨0, 2, none⟩, ⟨2, 3, some "true"⟩, ⟨3, 2, some "loop"⟩,
          (⟨2, 1, some "false"⟩ : GEdge)], e.label = some "loop" →
        ∃ n ∈ (⟨[⟨0, "start", NodeKind.start⟩, ⟨1, "end", NodeKind.stop⟩,
            ⟨2, "c", NodeKind.decision⟩, ⟨3, "g", NodeKind.call⟩],
          [⟨0, 2, none⟩, ⟨2, 3, some "true"⟩, ⟨3, 2, some "loop"⟩,
            ⟨2, 1, some "false"⟩]⟩ : GraphModel).nodes,
          n.id = e.toId ∧ n.kind = NodeKind.decision)) :=
  ⟨⟨rfl, rfl⟩,
    (C8_decision_back_edges
      (.cons (.functionDef "f" [] (.cons (.swhile "c" (.cons (.scall "g") .nil)) .nil)) .nil)
      ⟨[⟨0, "start", NodeKind.start⟩, ⟨1, "end", NodeKind.stop⟩,
          ⟨2, "c", NodeKind.decision⟩, ⟨3, "g", NodeKind.call⟩],
        [⟨0, 2, none⟩, ⟨2, 3, some "true"⟩, ⟨3, 2, some "loop"⟩, ⟨2, 1, some "false"⟩]⟩
      rfl).1,
    (C8_decision_back_edges
      (.cons (.functionDef "f" [] (.cons (.swhile "c" (.cons (.scall "g") .nil)) .nil)) .nil)
      ⟨[⟨0, "start", NodeKind.start⟩, ⟨1, "end", NodeKind.stop⟩,
          ⟨2, "c", NodeKind.decision⟩, ⟨3, "g", NodeKind.call⟩],
        [⟨0, 2, none⟩, ⟨2, 3, some "true"⟩, ⟨3, 2, some "loop"⟩, ⟨2, 1, some "false"⟩]⟩
      rfl).2.1,
    ((C8_decision_back_edges
      (.cons (.functionDef "f" [] (.cons (.swhile "c" (.cons (.scall "g") .nil)) .nil)) .nil)
      ⟨[⟨0, "start", NodeKind.start⟩, ⟨1, "end", NodeKind.stop⟩,
          ⟨2, "c", NodeKind.decision⟩, ⟨3, "g", NodeKind.call⟩],
        [⟨0, 2, none⟩, ⟨2, 3, some "true"⟩, ⟨3, 2, some "loop"⟩, ⟨2, 1, some "false"⟩]⟩
      rfl).2.2 rfl).1,
    ((C8_decision_back_edges
      (.cons (.functionDef "f" [] (.cons (.swhile "c" (.cons (.scall "g") .nil)) .nil)) .nil)
      ⟨[⟨0, "start", NodeKind.start⟩, ⟨1, "end", NodeKind.stop⟩,
          ⟨2, "c", NodeKind.decision⟩, ⟨3, "g", NodeKind.call⟩],
        [⟨0, 2, none⟩, ⟨2, 3, some "true"⟩, ⟨3, 2, some "loop"⟩, ⟨2, 1, some "false"⟩]⟩
      rfl).2.2 rfl).2⟩

end Analyzer
